import Mathlib

/-!
Shallow embedding of the extraction-consensus-and-learning pipeline of the
Dijitallesme Asistani backend (Python), together with theorems settling the
frozen claims about its specification.

Python conventions used throughout the embedding:
* Python dicts become association lists `List (String × α)`; `none` in an
  `Option` field models an absent dictionary key.
* Python floats become `ℚ` (the confidence arithmetic of the source is plain
  field arithmetic on decimal constants).
* Mutable state (the SQL session of the learning service, the object heap for
  the frame-condition claims) is passed explicitly.
-/

namespace Diji

/-! ## Python-like string helpers -/

/-- Python whitespace recognised by `str.strip` / `str.split` (ASCII part). -/
def isPyWs (c : Char) : Bool :=
  c = ' ' ∨ c = '\t' ∨ c = '\n' ∨ c = '\x0d' ∨ c = '\x0b' ∨ c = '\x0c'

/-- Python `str.strip()` (no arguments): drop leading and trailing whitespace. -/
def pyStrip (s : String) : String :=
  ⟨((s.toList.dropWhile isPyWs).reverse.dropWhile isPyWs).reverse⟩

/-- Python `str.split()` (no arguments): split on whitespace runs, dropping
empty pieces. -/
def pySplitWs (s : String) : List String :=
  (s.split (fun c => isPyWs c)).filter (fun p => p ≠ "")

/-- Lower-case one character the way Python `str.lower` does on the alphabets
this code base uses (ASCII plus the Turkish letters named in its regexes).
Python maps the dotted capital İ (U+0130) to the two-codepoint sequence
`i` + U+0307; that case is handled by `pyLower` below. -/
def pyLowerChar (c : Char) : Char :=
  if 'A' ≤ c ∧ c ≤ 'Z' then Char.ofNat (c.toNat + 32)
  else if c = 'Ç' then 'ç'
  else if c = 'Ğ' then 'ğ'
  else if c = 'Ö' then 'ö'
  else if c = 'Ş' then 'ş'
  else if c = 'Ü' then 'ü'
  else c

/-- Python `str.lower()` on the relevant alphabets. -/
def pyLower (s : String) : String :=
  ⟨s.toList.foldr (fun c acc =>
    if c = 'İ' then 'i' :: Char.ofNat 775 :: acc else pyLowerChar c :: acc) []⟩

/-- Clamp a rational to the interval `[0, 1]` (the `max(0.0, min(1.0, x))`
idiom of the source). -/
def clamp01 (q : ℚ) : ℚ := max 0 (min q 1)

/-- Python `round(x, 3)` (model: round half away from zero at the third
decimal; used only for the observability score, which no claim mentions). -/
def pyRound3 (q : ℚ) : ℚ := (round (q * 1000) : ℤ) / 1000

/-! ## Association-list helpers modelling Python dicts -/

/-- `d.get(k)`: first binding of `k`, if any. -/
def alGet {α : Type} (m : List (String × α)) (k : String) : Option α :=
  match m with
  | [] => none
  | p :: t => if p.1 = k then some p.2 else alGet t k

/-- Replacement pass of `alSet`: rewrite every binding of `k` in place. -/
def alReplace {α : Type} (m : List (String × α)) (k : String) (v : α) :
    List (String × α) :=
  match m with
  | [] => []
  | p :: t => (if p.1 = k then (k, v) else p) :: alReplace t k v

/-- `d[k] = v`: replace the binding in place if the key exists (dicts keep the
original insertion position), else append it. -/
def alSet {α : Type} (m : List (String × α)) (k : String) (v : α) : List (String × α) :=
  if (alGet m k).isSome then alReplace m k v else m ++ [(k, v)]

/-- The keys of an association list are pairwise distinct (the invariant of
every genuine Python dict). -/
def nodupKeys {α : Type} (m : List (String × α)) : Prop :=
  (m.map Prod.fst).Nodup

instance {α : Type} (m : List (String × α)) : Decidable (nodupKeys m) := by
  unfold nodupKeys; infer_instance

/-! ## OCRQualityAnalyzer (smart_vision_fallback.py, lines 34-96) -/

/-- The OCR result record consumed by `OCRQualityAnalyzer.evaluate`.
`none` for the whole record models a `None` (or empty, hence falsy) input. -/
structure OcrInput where
  text : String
  average_confidence : Option ℚ
  word_count : Option Int
  error : Option String
deriving Repr, DecidableEq

/-- Constructor configuration of `OCRQualityAnalyzer`. -/
structure QualityConfig where
  min_average_confidence : ℚ
  min_word_count : Int
  allow_empty_text : Bool
deriving Repr, DecidableEq

/-- `OCRQualityReport` dataclass. -/
structure OCRQualityReport where
  score : ℚ
  reasons : List String
  should_fallback : Bool
deriving Repr, DecidableEq

/-- The effective word count used by `evaluate`: recomputed from the stripped
text when the reported count is falsy (`0`/absent) and text is present. -/
def effectiveWordCount (r : OcrInput) : Int :=
  let text := pyStrip r.text
  let word_count := r.word_count.getD 0
  if word_count = 0 ∧ text ≠ "" then ((pySplitWs text).length : Int) else word_count

/-- `OCRQualityAnalyzer.evaluate`. -/
def evaluate (cfg : QualityConfig) (ocr : Option OcrInput) : OCRQualityReport :=
  match ocr with
  | none => ⟨0, ["empty_result"], true⟩
  | some r =>
    let text := pyStrip r.text
    let average_conf : ℚ := r.average_confidence.getD 0
    let word_count : Int := effectiveWordCount r
    let reasons0 : List String :=
      if r.error.isSome ∧ r.error ≠ some "" then ["ocr_error"] else []
    let reasons1 : List String := reasons0 ++
      (if text = "" then ["empty_text"]
       else if word_count < cfg.min_word_count then ["low_word_count"] else [])
    let reasons2 : List String := reasons1 ++
      (if average_conf < cfg.min_average_confidence then ["low_confidence"] else [])
    let reasons : List String :=
      if text ≠ "" ∧ cfg.allow_empty_text then
        reasons2.filter (fun reason => reason ≠ "empty_text")
      else reasons2
    let confidence_component : ℚ := max (min average_conf 1) 0
    let density_component : ℚ :=
      if cfg.min_word_count > 0 then
        min ((word_count : ℚ) / (cfg.min_word_count : ℚ)) 1
      else 1
    let score := pyRound3 (confidence_component * (7/10) + density_component * (3/10))
    ⟨score, reasons, !reasons.isEmpty⟩

/-! ## Mapping entries and the two merge functions -/

/-- A displaced-candidate record held inside an `alternates` list. -/
structure AltEntry where
  value : Option String
  confidence : Option ℚ
  source : Option String
deriving Repr, DecidableEq

/-- A per-field mapping entry as the merge functions see it; `none` models an
absent dictionary key. -/
structure MEntry where
  value : Option String
  confidence : Option ℚ
  source : Option String
  evidence : Option String
  notes : Option String
  alternates : Option (List AltEntry)
deriving Repr, DecidableEq

/-- A field-mapping dictionary. -/
abbrev FieldMapping := List (String × MEntry)

/-- Body of the first loop of `merge_field_mappings` (handwriting_interpreter.py
lines 103-112): rebuild a base entry keeping only value/confidence/source/evidence. -/
def mfmBase (payload : MEntry) : MEntry :=
  { value := payload.value
    confidence := some (payload.confidence.getD 0)
    source := some (payload.source.getD "llm-primary")
    evidence := payload.evidence
    notes := none
    alternates := none }

/-- Body of the second loop of `merge_field_mappings` (lines 114-145): decide
between the existing entry and the specialist payload for one field. -/
def mfmStep (existing : Option MEntry) (payload : MEntry) : MEntry :=
  let specialist_conf : ℚ := payload.confidence.getD 0
  let specialist_value := payload.value
  let specialist_source := payload.source.getD "llm-specialist"
  match existing with
  | none =>
      { value := specialist_value, confidence := some specialist_conf
        source := some specialist_source, evidence := payload.evidence
        notes := none, alternates := none }
  | some e =>
      if specialist_conf ≥ e.confidence.getD 0 then
        let alternates := (e.alternates.getD []) ++
          [⟨e.value, some (e.confidence.getD 0), some (e.source.getD "llm-primary")⟩]
        { value := specialist_value, confidence := some specialist_conf
          source := some specialist_source, evidence := payload.evidence
          notes := none, alternates := some alternates }
      else
        let alternates := (e.alternates.getD []) ++
          [⟨specialist_value, some specialist_conf, some specialist_source⟩]
        { e with alternates := some alternates }

/-- `merge_field_mappings` (handwriting_interpreter.py, lines 95-147). -/
def merge_field_mappings (primary specialist : FieldMapping) : FieldMapping :=
  let merged := primary.foldl (fun acc p => alSet acc p.1 (mfmBase p.2)) []
  specialist.foldl (fun acc p => alSet acc p.1 (mfmStep (alGet acc p.1) p.2)) merged

/-- `_build_alternates` (smart_vision_fallback.py, lines 426-444). -/
def build_alternates (entry : MEntry) : List AltEntry :=
  match entry.alternates with
  | none => []
  | some l => l.map (fun item =>
      ⟨item.value, some (item.confidence.getD 0),
        some (item.source.getD (entry.source.getD "vision"))⟩)

/-- Body of the loop of `merge_ocr_and_vision_results` (lines 383-421) for one
vision field. -/
def movStep (existing : Option MEntry) (vision_entry : MEntry) : MEntry :=
  let vision_conf : ℚ := vision_entry.confidence.getD 0
  match existing with
  | none => { vision_entry with source := some (vision_entry.source.getD "vision") }
  | some e =>
      let ocr_conf : ℚ := e.confidence.getD 0
      if vision_conf > ocr_conf then
        let alternates := build_alternates e
        let newAlts := (vision_entry.alternates.getD []) ++
          (if alternates ≠ [] then alternates
           else [⟨e.value, some ocr_conf, some (e.source.getD "ocr")⟩])
        { vision_entry with alternates := some newAlts }
      else
        let alternatesV := build_alternates vision_entry
        let newAlts := (e.alternates.getD []) ++ alternatesV ++
          [⟨vision_entry.value, some vision_conf, some (vision_entry.source.getD "vision")⟩]
        { e with alternates := some newAlts }

/-- `merge_ocr_and_vision_results` (smart_vision_fallback.py, lines 369-423).
`none` models a `None` (or empty, hence falsy) argument. -/
def merge_ocr_and_vision_results (ocr vision : Option FieldMapping) : FieldMapping :=
  let merged := ocr.getD []
  (vision.getD []).foldl (fun acc p => alSet acc p.1 (movStep (alGet acc p.1) p.2)) merged

/-- Template field definition (the keys this pipeline reads). -/
structure TField where
  field_name : String
  data_type : Option String
  required : Bool
  regex_hint : Option String
  ocr_psm : Option String
  ocr_roi : Option String
deriving Repr, DecidableEq

/-- The entry synthesized for template fields missing from the merged map
(routes/batch.py, lines 311-318). -/
def unmappedEntry : MEntry :=
  { value := none, confidence := some 0, source := some "unmapped"
    evidence := none, notes := none, alternates := none }

/-- The completion loop that follows `merge_field_mappings` in the batch
pipeline (routes/batch.py, lines 311-318). -/
def fill_unmapped (template_fields : List TField) (merged : FieldMapping) : FieldMapping :=
  template_fields.foldl (fun acc f =>
    if f.field_name ≠ "" ∧ (alGet acc f.field_name).isNone then
      acc ++ [(f.field_name, unmappedEntry)]
    else acc) merged

/-- The merge step of the batch pipeline: fold the specialist mapping into the
primary(+vision) mapping, then synthesize `unmapped` entries for template
fields absent from both stages (routes/batch.py, lines 306-318). -/
def merge_step (template_fields : List TField) (primary specialist : FieldMapping) :
    FieldMapping :=
  fill_unmapped template_fields (merge_field_mappings primary specialist)

/-! ## Lemmas about the association-list operations -/

@[simp] theorem alGet_nil {α : Type} (k : String) : alGet ([] : List (String × α)) k = none := rfl

theorem alGet_cons {α : Type} (p : String × α) (t : List (String × α)) (k : String) :
    alGet (p :: t) k = if p.1 = k then some p.2 else alGet t k := rfl

@[simp] theorem alReplace_nil {α : Type} (k : String) (v : α) :
    alReplace ([] : List (String × α)) k v = [] := rfl

theorem alReplace_cons {α : Type} (p : String × α) (t : List (String × α)) (k : String) (v : α) :
    alReplace (p :: t) k v = (if p.1 = k then (k, v) else p) :: alReplace t k v := rfl

theorem alGet_append_right {α : Type} (m m2 : List (String × α)) (k : String)
    (h : alGet m k = none) : alGet (m ++ m2) k = alGet m2 k := by
  induction m with
  | nil => simp
  | cons p t ih =>
    rw [alGet_cons] at h
    rw [List.cons_append, alGet_cons]
    by_cases hp : p.1 = k
    · simp [hp] at h
    · simp only [hp, if_false] at h ⊢
      exact ih h

theorem alGet_alReplace_self {α : Type} (m : List (String × α)) (k : String) (v : α)
    (h : (alGet m k).isSome) : alGet (alReplace m k v) k = some v := by
  induction m with
  | nil => simp at h
  | cons p t ih =>
    rw [alGet_cons] at h
    rw [alReplace_cons, alGet_cons]
    by_cases hp : p.1 = k
    · simp [hp]
    · simp only [hp, if_false] at h ⊢
      exact ih h

theorem alGet_alSet_self {α : Type} (m : List (String × α)) (k : String) (v : α) :
    alGet (alSet m k v) k = some v := by
  unfold alSet
  by_cases h : (alGet m k).isSome
  · simpa [h] using alGet_alReplace_self m k v h
  · rw [if_neg h, alGet_append_right]
    · simp [alGet_cons]
    · rcases hc : alGet m k with _ | w
      · rfl
      · rw [hc] at h; simp at h

theorem alGet_alReplace_ne {α : Type} (m : List (String × α)) (k k2 : String) (v : α)
    (hne : k ≠ k2) : alGet (alReplace m k v) k2 = alGet m k2 := by
  induction m with
  | nil => rfl
  | cons p t ih =>
    rw [alReplace_cons, alGet_cons, alGet_cons]
    by_cases hp : p.1 = k
    · simp only [hp, if_true]
      simp only [hne, if_false, hp ▸ hne, ih]

    · simp only [hp, if_false]
      by_cases hp2 : p.1 = k2
      · simp [hp2]
      · simp only [hp2, if_false]
        exact ih

theorem alGet_alSet_ne {α : Type} (m : List (String × α)) (k k2 : String) (v : α)
    (hne : k ≠ k2) : alGet (alSet m k v) k2 = alGet m k2 := by
  unfold alSet
  by_cases h : (alGet m k).isSome
  · rw [if_pos h]
    exact alGet_alReplace_ne m k k2 v hne
  · rw [if_neg h]
    induction m with
    | nil => simp [alGet_cons, hne]
    | cons p t ih =>
      rw [List.cons_append, alGet_cons, alGet_cons]
      by_cases hp2 : p.1 = k2
      · simp [hp2]
      · simp only [hp2, if_false]
        apply ih
        intro hc
        apply h
        rw [alGet_cons]
        by_cases hp : p.1 = k
        · simp [hp]
        · simpa [hp] using hc

theorem mem_alSet {α : Type} (m : List (String × α)) (k : String) (v : α)
    (q : String × α) (hq : q ∈ alSet m k v) : q = (k, v) ∨ q ∈ m := by
  unfold alSet at hq
  by_cases h : (alGet m k).isSome
  · rw [if_pos h] at hq
    clear h
    induction m with
    | nil => cases hq
    | cons p t ih =>
      rw [alReplace_cons] at hq
      rcases List.mem_cons.mp hq with hq | hq
      · by_cases hp : p.1 = k
        · left; simpa [hp] using hq
        · right
          apply List.mem_cons.mpr
          left
          simpa [hp] using hq
      · rcases ih hq with hh | hh
        · left; exact hh
        · right; exact List.mem_cons.mpr (Or.inr hh)
  · rw [if_neg h] at hq
    rcases List.mem_append.mp hq with hq | hq
    · right; exact hq
    · left; simpa using hq

theorem keys_alReplace {α : Type} (m : List (String × α)) (k : String) (v : α) :
    (alReplace m k v).map Prod.fst = m.map Prod.fst := by
  induction m with
  | nil => rfl
  | cons p t ih =>
    rw [alReplace_cons]
    simp only [List.map_cons, ih]
    congr 1
    by_cases hp : p.1 = k
    · simp [hp]
    · simp [hp]

theorem alGet_isSome_of_key_mem {α : Type} (m : List (String × α)) (k : String)
    (h : k ∈ m.map Prod.fst) : (alGet m k).isSome := by
  induction m with
  | nil => cases h
  | cons q t ih =>
    rw [alGet_cons]
    by_cases hq : q.1 = k
    · simp [hq]
    · simp only [hq, if_false]
      apply ih
      simp only [List.map_cons, List.mem_cons] at h
      rcases h with h | h
      · exact absurd h.symm hq
      · exact h

theorem nodupKeys_alSet {α : Type} (m : List (String × α)) (k : String) (v : α)
    (h : nodupKeys m) : nodupKeys (alSet m k v) := by
  unfold alSet
  by_cases hs : (alGet m k).isSome
  · rw [if_pos hs]
    unfold nodupKeys at *
    rw [keys_alReplace m k v]
    exact h
  · rw [if_neg hs]
    unfold nodupKeys at *
    have hk : k ∉ m.map Prod.fst := by
      intro hmem
      exact hs (alGet_isSome_of_key_mem m k hmem)
    simp [List.nodup_append, h, hk]

/-- In a dup-free association list the lookup of `k` where `(k, v)` is a
binding returns exactly `v`. -/
theorem alGet_of_mem_nodup {α : Type} (m : List (String × α)) (k : String) (v : α)
    (hnd : nodupKeys m) (h : (k, v) ∈ m) : alGet m k = some v := by
  induction m with
  | nil => cases h
  | cons p t ih =>
    rw [alGet_cons]
    rcases List.mem_cons.mp h with h | h
    · simp [← h]
    · have hk : p.1 ≠ k := by
        intro he
        unfold nodupKeys at hnd
        simp only [List.map_cons, List.nodup_cons] at hnd
        exact hnd.1 (he ▸ List.mem_map.mpr ⟨(k, v), h, rfl⟩)
      simp only [hk, if_false]
      have hnd2 : nodupKeys t := by
        unfold nodupKeys at hnd ⊢
        simp only [List.map_cons, List.nodup_cons] at hnd
        exact hnd.2
      exact ih hnd2 h

/-- A successful lookup comes from a binding of the list. -/
theorem alGet_eq_some_mem {α : Type} (m : List (String × α)) (k : String) (v : α)
    (h : alGet m k = some v) : (k, v) ∈ m := by
  induction m with
  | nil => cases h
  | cons p t ih =>
    rw [alGet_cons] at h
    by_cases hp : p.1 = k
    · simp only [hp, if_true, Option.some_inj] at h
      apply List.mem_cons.mpr
      left
      cases p
      simp at hp
      simp [hp, ← h]
    · simp only [hp, if_false] at h
      exact List.mem_cons.mpr (Or.inr (ih h))

/-- The dict-update loops of the merge functions: every iteration reads the
accumulator at the item key and writes back an updated entry. -/
def updFold {α β : Type} (g : Option α → β → α) (items : List (String × β))
    (init : List (String × α)) : List (String × α) :=
  items.foldl (fun acc p => alSet acc p.1 (g (alGet acc p.1) p.2)) init

theorem updFold_nil {α β : Type} (g : Option α → β → α) (init : List (String × α)) :
    updFold g [] init = init := rfl

theorem updFold_cons {α β : Type} (g : Option α → β → α) (p : String × β)
    (t : List (String × β)) (init : List (String × α)) :
    updFold g (p :: t) init = updFold g t (alSet init p.1 (g (alGet init p.1) p.2)) := rfl

theorem updFold_get_not_mem {α β : Type} (g : Option α → β → α)
    (items : List (String × β)) (init : List (String × α)) (k : String)
    (h : k ∉ items.map Prod.fst) : alGet (updFold g items init) k = alGet init k := by
  induction items generalizing init with
  | nil => rfl
  | cons p t ih =>
    rw [updFold_cons]
    simp only [List.map_cons, List.mem_cons] at h
    push_neg at h
    rw [ih _ h.2, alGet_alSet_ne _ _ _ _ (fun he => h.1 he.symm)]

theorem updFold_get_mem {α β : Type} (g : Option α → β → α)
    (items : List (String × β)) (init : List (String × α)) (k : String) (b : β)
    (hnd : (items.map Prod.fst).Nodup) (hmem : (k, b) ∈ items) :
    alGet (updFold g items init) k = some (g (alGet init k) b) := by
  induction items generalizing init with
  | nil => cases hmem
  | cons p t ih =>
    simp only [List.map_cons, List.nodup_cons] at hnd
    rw [updFold_cons]
    rcases List.mem_cons.mp hmem with hmem | hmem
    · have hk : p.1 = k := by rw [← hmem]
      have hb : p.2 = b := by rw [← hmem]
      have hnot : k ∉ t.map Prod.fst := hk ▸ hnd.1
      rw [updFold_get_not_mem g t _ k hnot, hk, hb, alGet_alSet_self]
    · have hk : p.1 ≠ k := by
        intro he
        exact hnd.1 (he ▸ List.mem_map.mpr ⟨(k, b), hmem, rfl⟩)
      rw [ih _ hnd.2 hmem, alGet_alSet_ne _ _ _ _ hk]

theorem updFold_forall {α β : Type} (g : Option α → β → α)
    (items : List (String × β)) (init : List (String × α)) (Q : α → Prop)
    (hinit : ∀ q ∈ init, Q q.2)
    (hg : ∀ (o : Option α) (p : String × β), p ∈ items → (∀ a, o = some a → Q a) →
      Q (g o p.2)) :
    ∀ q ∈ updFold g items init, Q q.2 := by
  induction items generalizing init with
  | nil => exact hinit
  | cons p t ih =>
    rw [updFold_cons]
    apply ih
    · intro q hq
      rcases mem_alSet _ _ _ _ hq with hq | hq
      · rw [hq]
        apply hg (alGet init p.1) p (List.mem_cons_self _ _)
        intro a ha
        exact hinit _ (alGet_eq_some_mem _ _ _ ha)
      · exact hinit _ hq
    · intro o q hq hQ
      exact hg o q (List.mem_cons.mpr (Or.inr hq)) hQ

theorem updFold_nodup {α β : Type} (g : Option α → β → α)
    (items : List (String × β)) (init : List (String × α))
    (h : nodupKeys init) : nodupKeys (updFold g items init) := by
  induction items generalizing init with
  | nil => exact h
  | cons p t ih =>
    rw [updFold_cons]
    exact ih _ (nodupKeys_alSet _ _ _ h)

theorem updFold_isSome {α β : Type} (g : Option α → β → α)
    (items : List (String × β)) (init : List (String × α)) (k : String)
    (h : (alGet init k).isSome) : (alGet (updFold g items init) k).isSome := by
  induction items generalizing init with
  | nil => exact h
  | cons p t ih =>
    rw [updFold_cons]
    apply ih
    by_cases hp : p.1 = k
    · rw [hp, alGet_alSet_self]; rfl
    · rw [alGet_alSet_ne _ _ _ _ hp]; exact h

theorem alGet_append_left {α : Type} (m m2 : List (String × α)) (k : String) (v : α)
    (h : alGet m k = some v) : alGet (m ++ m2) k = some v := by
  induction m with
  | nil => cases h
  | cons p t ih =>
    rw [alGet_cons] at h
    rw [List.cons_append, alGet_cons]
    by_cases hp : p.1 = k
    · simpa [hp] using h
    · simp only [hp, if_false] at h ⊢
      exact ih h

theorem fill_unmapped_nil (m : FieldMapping) : fill_unmapped [] m = m := rfl

theorem fill_unmapped_cons (f : TField) (t : List TField) (m : FieldMapping) :
    fill_unmapped (f :: t) m =
      fill_unmapped t
        (if f.field_name ≠ "" ∧ (alGet m f.field_name).isNone then
          m ++ [(f.field_name, unmappedEntry)]
        else m) := rfl

theorem fill_get_some (tf : List TField) (m : FieldMapping) (k : String) (v : MEntry)
    (h : alGet m k = some v) : alGet (fill_unmapped tf m) k = some v := by
  induction tf generalizing m with
  | nil => exact h
  | cons f t ih =>
    rw [fill_unmapped_cons]
    apply ih
    by_cases hc : f.field_name ≠ "" ∧ (alGet m f.field_name).isNone
    · rw [if_pos hc]
      exact alGet_append_left _ _ _ _ h
    · rw [if_neg hc]; exact h

theorem fill_nodup (tf : List TField) (m : FieldMapping) (h : nodupKeys m) :
    nodupKeys (fill_unmapped tf m) := by
  induction tf generalizing m with
  | nil => exact h
  | cons f t ih =>
    rw [fill_unmapped_cons]
    apply ih
    by_cases hc : f.field_name ≠ "" ∧ (alGet m f.field_name).isNone
    · rw [if_pos hc]
      unfold nodupKeys at *
      have hk : f.field_name ∉ m.map Prod.fst := by
        intro hmem
        have := alGet_isSome_of_key_mem m f.field_name hmem
        rw [Option.isNone_iff_eq_none.mp hc.2] at this
        cases this
      simp [List.nodup_append, h, hk]
    · rw [if_neg hc]; exact h

theorem fill_mem (tf : List TField) (m : FieldMapping) (q : String × MEntry)
    (hq : q ∈ fill_unmapped tf m) : q ∈ m ∨ q.2 = unmappedEntry := by
  induction tf generalizing m with
  | nil => exact Or.inl hq
  | cons f t ih =>
    rw [fill_unmapped_cons] at hq
    rcases ih _ hq with hh | hh
    · by_cases hc : f.field_name ≠ "" ∧ (alGet m f.field_name).isNone
      · rw [if_pos hc] at hh
        rcases List.mem_append.mp hh with hh | hh
        · exact Or.inl hh
        · right
          simp only [List.mem_singleton] at hh
          rw [hh]
      · rw [if_neg hc] at hh
        exact Or.inl hh
    · exact Or.inr hh

theorem fill_adds (tf : List TField) (m : FieldMapping) (f : TField)
    (hf : f ∈ tf) (hn : f.field_name ≠ "") (h : alGet m f.field_name = none) :
    alGet (fill_unmapped tf m) f.field_name = some unmappedEntry := by
  induction tf generalizing m with
  | nil => cases hf
  | cons g t ih =>
    rw [fill_unmapped_cons]
    rcases List.mem_cons.mp hf with hf | hf
    · rw [← hf]
      rw [if_pos ⟨hn, Option.isNone_iff_eq_none.mpr h⟩]
      apply fill_get_some
      rw [alGet_append_right _ _ _ h, alGet_cons]
      simp
    · by_cases hc : g.field_name ≠ "" ∧ (alGet m g.field_name).isNone
      · rw [if_pos hc]
        by_cases hg : g.field_name = f.field_name
        · apply fill_get_some
          rw [← hg, alGet_append_right _ _ _ (hg ▸ h), alGet_cons]
          simp
        · apply ih _ hf
          rw [alGet_append_right _ _ _ h, alGet_cons]
          simp [hg]
      · rw [if_neg hc]
        exact ih _ hf h

/-! ## Theorems about OCRQualityAnalyzer (claim C5) -/

theorem evaluate_reasons_eq (cfg : QualityConfig) (r : OcrInput) :
    (evaluate cfg (some r)).reasons =
      (if r.error.isSome ∧ r.error ≠ some "" then ["ocr_error"] else []) ++
      (if pyStrip r.text = "" then ["empty_text"]
       else if effectiveWordCount r < cfg.min_word_count then ["low_word_count"] else []) ++
      (if r.average_confidence.getD 0 < cfg.min_average_confidence then ["low_confidence"]
       else []) := by
  show (if pyStrip r.text ≠ "" ∧ cfg.allow_empty_text then _ else _) = _
  by_cases hT : pyStrip r.text = ""
  · rw [if_neg (by simp [hT])]
  · by_cases hA : cfg.allow_empty_text
    · rw [if_pos ⟨hT, hA⟩]
      apply List.filter_eq_self.mpr
      intro a ha
      simp only [List.mem_append] at ha
      rcases ha with (ha | ha) | ha
      · split at ha <;> simp_all
      · rw [if_neg hT] at ha
        split at ha <;> simp_all
      · split at ha <;> simp_all
    · rw [if_neg (by simp [hA])]

theorem evaluate_fallback_eq (cfg : QualityConfig) (r : OcrInput) :
    (evaluate cfg (some r)).should_fallback =
      !(evaluate cfg (some r)).reasons.isEmpty := rfl

/-- C5 (amended): `OCRQualityAnalyzer.evaluate` flags `empty_text` exactly when
the stripped text is blank — the `allow_empty_text` toleration is ineffective,
because the code removes the flag only when the text is NON-blank, a situation
in which the flag was never added; it flags `low_word_count` exactly when the
text is non-blank and the effective word count is below the minimum;
`low_confidence` exactly when the average confidence is below the minimum;
`ocr_error` exactly when an error is reported; `should_fallback` holds iff at
least one flag is present; and on `{text:"", average_confidence:0, word_count:0}`
it returns `should_fallback = true` with reasons including `empty_text`. -/
theorem c5_quality_analyzer_flags (cfg : QualityConfig) (r : OcrInput) :
    (("empty_text" ∈ (evaluate cfg (some r)).reasons ↔ pyStrip r.text = "") ∧
     ("low_word_count" ∈ (evaluate cfg (some r)).reasons ↔
        (pyStrip r.text ≠ "" ∧ effectiveWordCount r < cfg.min_word_count)) ∧
     ("low_confidence" ∈ (evaluate cfg (some r)).reasons ↔
        r.average_confidence.getD 0 < cfg.min_average_confidence) ∧
     ("ocr_error" ∈ (evaluate cfg (some r)).reasons ↔
        (r.error.isSome ∧ r.error ≠ some "")) ∧
     ((evaluate cfg (some r)).should_fallback = true ↔
        (evaluate cfg (some r)).reasons ≠ [])) ∧
    (evaluate ⟨55/100, 5, false⟩ (some ⟨"", some 0, some 0, none⟩)).should_fallback = true ∧
    "empty_text" ∈ (evaluate ⟨55/100, 5, false⟩ (some ⟨"", some 0, some 0, none⟩)).reasons := by
  refine ⟨⟨?_, ?_, ?_, ?_, ?_⟩, by decide, by decide⟩
  · rw [evaluate_reasons_eq]
    split_ifs <;> simp_all
  · rw [evaluate_reasons_eq]
    split_ifs <;> simp_all
  · rw [evaluate_reasons_eq]
    split_ifs <;> simp_all
  · rw [evaluate_reasons_eq]
    split_ifs <;> simp_all
  · rw [evaluate_fallback_eq]
    simp [List.isEmpty_iff]

/-- C5 counterexample: with `allow_empty_text := true` and blank text the code
still flags `empty_text` (the claim as stated says the flag appears only when
empty text is NOT tolerated), because the toleration filter is guarded by the
text being non-blank. -/
theorem c5_counterexample :
    (⟨55/100, 5, true⟩ : QualityConfig).allow_empty_text = true ∧
    "empty_text" ∈ (evaluate ⟨55/100, 5, true⟩ (some ⟨"", some 0, some 0, none⟩)).reasons := by
  constructor
  · rfl
  · decide

/-! ## Theorems about the merge functions (claims C1, C2) -/

theorem merge_field_mappings_eq (primary specialist : FieldMapping) :
    merge_field_mappings primary specialist =
      updFold mfmStep specialist (updFold (fun _ b => mfmBase b) primary []) := rfl

theorem merge_ocr_and_vision_results_eq (ocr vision : Option FieldMapping) :
    merge_ocr_and_vision_results ocr vision =
      updFold movStep (vision.getD []) (ocr.getD []) := rfl

/-- Confidence of every entry of `merge_field_mappings` is an explicitly stored
rational that stays within `[0, 1]` when all stage confidences do. -/
theorem merge_field_mappings_conf_bounded (primary specialist : FieldMapping)
    (h1 : ∀ q ∈ primary, 0 ≤ q.2.confidence.getD 0 ∧ q.2.confidence.getD 0 ≤ 1)
    (h2 : ∀ q ∈ specialist, 0 ≤ q.2.confidence.getD 0 ∧ q.2.confidence.getD 0 ≤ 1) :
    ∀ q ∈ merge_field_mappings primary specialist,
      ∃ c, q.2.confidence = some c ∧ 0 ≤ c ∧ c ≤ 1 := by
  rw [merge_field_mappings_eq]
  refine updFold_forall _ _ _
    (fun (e : MEntry) => ∃ c, e.confidence = some c ∧ 0 ≤ c ∧ c ≤ 1) ?_ ?_
  · refine updFold_forall _ _ _
      (fun (e : MEntry) => ∃ c, e.confidence = some c ∧ 0 ≤ c ∧ c ≤ 1) ?_ ?_
    · intro q hq; cases hq
    · intro o p hp _
      exact ⟨p.2.confidence.getD 0, rfl, h1 p hp⟩
  · intro o p hp hQ
    unfold mfmStep
    cases o with
    | none => exact ⟨p.2.confidence.getD 0, rfl, h2 p hp⟩
    | some e =>
      by_cases hc : p.2.confidence.getD 0 ≥ e.confidence.getD 0
      · simp only [hc, if_true]
        exact ⟨p.2.confidence.getD 0, rfl, h2 p hp⟩
      · simp only [hc, if_false]
        rcases hQ e rfl with ⟨c, hce, hc0, hc1⟩
        exact ⟨c, hce, hc0, hc1⟩

/-- C1 (amended): the merge step of the pipeline — `merge_field_mappings`
followed by the synthesis of `{value: null, confidence: 0, source: "unmapped"}`
entries for missing template fields — yields a map in which every named
template field appears exactly once (the keys are duplicate-free and each such
field is present; fields absent from both stages get the `unmapped` entry);
and, PROVIDED every stage confidence lies in `[0, 1]`, every merged confidence
lies in `[0, 1]`.  The interval bound is conditional: the merge itself never
clamps (see the counterexample). -/
theorem c1_merge_step_complete_and_bounded (tf : List TField)
    (primary specialist : FieldMapping)
    (h1 : ∀ q ∈ primary, 0 ≤ q.2.confidence.getD 0 ∧ q.2.confidence.getD 0 ≤ 1)
    (h2 : ∀ q ∈ specialist, 0 ≤ q.2.confidence.getD 0 ∧ q.2.confidence.getD 0 ≤ 1) :
    nodupKeys (merge_step tf primary specialist) ∧
    (∀ f ∈ tf, f.field_name ≠ "" →
      (alGet (merge_step tf primary specialist) f.field_name).isSome) ∧
    (∀ q ∈ merge_step tf primary specialist,
      ∃ c, q.2.confidence = some c ∧ 0 ≤ c ∧ c ≤ 1) ∧
    (∀ f ∈ tf, f.field_name ≠ "" →
      alGet (merge_field_mappings primary specialist) f.field_name = none →
      alGet (merge_step tf primary specialist) f.field_name = some unmappedEntry) := by
  refine ⟨?_, ?_, ?_, ?_⟩
  · apply fill_nodup
    rw [merge_field_mappings_eq]
    apply updFold_nodup
    apply updFold_nodup
    simp [nodupKeys]
  · intro f hf hn
    rcases hm : alGet (merge_field_mappings primary specialist) f.field_name with _ | v
    · rw [merge_step, fill_adds tf _ f hf hn hm]; rfl
    · rw [merge_step, fill_get_some _ _ _ _ hm]; rfl
  · intro q hq
    rcases fill_mem _ _ _ hq with hh | hh
    · exact merge_field_mappings_conf_bounded primary specialist h1 h2 q hh
    · rw [hh]
      exact ⟨0, rfl, le_refl 0, by norm_num⟩
  · intro f hf hn hm
    exact fill_adds tf _ f hf hn hm

/-- C1 counterexample: a specialist confidence of `3/2` flows through the
merge step unclamped, so the claimed unconditional bound `confidence ∈ [0, 1]`
is false. -/
theorem c1_counterexample :
    (alGet
      (merge_step [⟨"f", some "text", false, none, none, none⟩] []
        [("f", ⟨some "x", some (3/2), some "llm-specialist", none, none, none⟩)])
      "f").map (fun e => e.confidence) = some (some (3/2)) ∧
    ¬ ((3/2 : ℚ) ≤ 1) := by
  constructor
  · rfl
  · norm_num

/-- C1 witness: the merge-step theorem applied to a concrete template with one
mapped and one unmapped field. -/
theorem c1_witness :
    nodupKeys (merge_step [⟨"a", some "text", false, none, none, none⟩,
        ⟨"b", some "date", false, none, none, none⟩]
      [("a", ⟨some "v", some (1/2), some "llm-primary", none, none, none⟩)] []) ∧
    (alGet (merge_step [⟨"a", some "text", false, none, none, none⟩,
        ⟨"b", some "date", false, none, none, none⟩]
      [("a", ⟨some "v", some (1/2), some "llm-primary", none, none, none⟩)] [])
      "b") = some unmappedEntry := by
  have h := c1_merge_step_complete_and_bounded
    [⟨"a", some "text", false, none, none, none⟩, ⟨"b", some "date", false, none, none, none⟩]
    [("a", ⟨some "v", some (1/2), some "llm-primary", none, none, none⟩)] []
    (by intro q hq; rcases List.mem_singleton.mp hq with rfl; norm_num)
    (by intro q hq; cases hq)
  refine ⟨h.1, ?_⟩
  exact h.2.2.2 ⟨"b", some "date", false, none, none, none⟩ (by simp) (by decide) (by rfl)

/-- C2 (amended): for a field present in both inputs the higher-confidence
entry wins; in `merge_field_mappings` ties favor the specialist overlay (`≥`)
and the loser becomes the SINGLE alternate — the primary entry's own prior
alternates are discarded by the first loop; in `merge_ocr_and_vision_results`
the overlay wins only on STRICTLY greater confidence (ties favor the base);
when vision wins, the base entry itself is recorded as an alternate only when
the base had no prior alternates, otherwise the base's normalized prior
alternates are carried instead; when the base wins, the vision entry's own
normalized alternates and then the vision entry are appended to the base's
alternates. -/
theorem c2_merge_winner_and_alternates
    (primary specialist ocr vision : FieldMapping) (f : String)
    (pe se oe ve : MEntry)
    (hnd1 : nodupKeys primary) (hnd2 : nodupKeys specialist) (hnd4 : nodupKeys vision)
    (hp : alGet primary f = some pe)
    (hs : alGet specialist f = some se)
    (ho : alGet ocr f = some oe) (hv : alGet vision f = some ve) :
    (se.confidence.getD 0 ≥ pe.confidence.getD 0 →
      alGet (merge_field_mappings primary specialist) f = some
        { value := se.value, confidence := some (se.confidence.getD 0)
          source := some (se.source.getD "llm-specialist"), evidence := se.evidence
          notes := none
          alternates := some [⟨pe.value, some (pe.confidence.getD 0),
            some (pe.source.getD "llm-primary")⟩] }) ∧
    (¬ se.confidence.getD 0 ≥ pe.confidence.getD 0 →
      alGet (merge_field_mappings primary specialist) f = some
        { value := pe.value, confidence := some (pe.confidence.getD 0)
          source := some (pe.source.getD "llm-primary"), evidence := pe.evidence
          notes := none
          alternates := some [⟨se.value, some (se.confidence.getD 0),
            some (se.source.getD "llm-specialist")⟩] }) ∧
    (ve.confidence.getD 0 > oe.confidence.getD 0 →
      alGet (merge_ocr_and_vision_results (some ocr) (some vision)) f = some
        { ve with alternates := some ((ve.alternates.getD []) ++
            (if build_alternates oe ≠ [] then build_alternates oe
             else [⟨oe.value, some (oe.confidence.getD 0),
               some (oe.source.getD "ocr")⟩])) }) ∧
    (¬ ve.confidence.getD 0 > oe.confidence.getD 0 →
      alGet (merge_ocr_and_vision_results (some ocr) (some vision)) f = some
        { oe with alternates := some ((oe.alternates.getD []) ++ build_alternates ve ++
            [⟨ve.value, some (ve.confidence.getD 0),
              some (ve.source.getD "vision")⟩]) }) := by
  have hsm := alGet_eq_some_mem _ _ _ hs
  have hvm := alGet_eq_some_mem _ _ _ hv
  have hpm := alGet_eq_some_mem _ _ _ hp
  have hp0 : alGet (updFold (fun _ b => mfmBase b) primary []) f = some (mfmBase pe) :=
    updFold_get_mem (fun _ b => mfmBase b) primary [] f pe hnd1 hpm
  have hmfm : alGet (merge_field_mappings primary specialist) f =
      some (mfmStep (some (mfmBase pe)) se) := by
    rw [merge_field_mappings_eq, updFold_get_mem mfmStep specialist _ f se hnd2 hsm, hp0]
  have hmov : alGet (merge_ocr_and_vision_results (some ocr) (some vision)) f =
      some (movStep (some oe) ve) := by
    rw [merge_ocr_and_vision_results_eq]
    show alGet (updFold movStep vision ocr) f = _
    rw [updFold_get_mem movStep vision _ f ve hnd4 hvm, ho]
  refine ⟨?_, ?_, ?_, ?_⟩
  · intro hc
    rw [hmfm]
    simp only [mfmStep, mfmBase, Option.getD_some, hc, ge_iff_le, if_true]
    simp [mfmBase, hc]
  · intro hc
    rw [hmfm]
    simp only [mfmStep, mfmBase, Option.getD_some]
    rw [if_neg (by simpa using hc)]
    simp
  · intro hc
    rw [hmov]
    simp only [movStep, Option.getD_some]
    rw [if_pos hc]
  · intro hc
    rw [hmov]
    simp only [movStep, Option.getD_some]
    rw [if_neg hc]

/-- C2 counterexample: at a confidence tie `merge_ocr_and_vision_results`
keeps the BASE entry and pushes the overlay onto the alternates, contradicting
the claim that ties favor the overlay in both applications of the merge. -/
theorem c2_counterexample :
    alGet (merge_ocr_and_vision_results
        (some [("f", ⟨some "A", some (1/2), some "ocr", none, none, none⟩)])
        (some [("f", ⟨some "B", some (1/2), some "vision", none, none, none⟩)])) "f" =
      some ⟨some "A", some (1/2), some "ocr", none, none,
        some [⟨some "B", some (1/2), some "vision"⟩]⟩ := by
  rw [merge_ocr_and_vision_results_eq]
  simp only [Option.getD_some, updFold_cons, updFold_nil]
  rw [alGet_alSet_self]
  show some (movStep (some ⟨some "A", some (1/2), some "ocr", none, none, none⟩)
    ⟨some "B", some (1/2), some "vision", none, none, none⟩) = _
  simp only [movStep, Option.getD_some, Option.getD_none]
  rw [if_neg (by norm_num)]
  simp [build_alternates]

/-- C2 witness: the characterization applied at concrete one-field maps, with
the specialist winning the first merge (0.8 ≥ 0.55) and the base winning the
tie in the second merge. -/
theorem c2_witness :
    alGet (merge_field_mappings
        [("f", ⟨some "100", some (55/100), some "llm-primary", none, none, none⟩)]
        [("f", ⟨some "100.00", some (8/10), some "llm-specialist", none, none, none⟩)]) "f" =
      some ⟨some "100.00", some (8/10), some "llm-specialist", none, none,
        some [⟨some "100", some (55/100), some "llm-primary"⟩]⟩ := by
  have h := c2_merge_winner_and_alternates
    [("f", ⟨some "100", some (55/100), some "llm-primary", none, none, none⟩)]
    [("f", ⟨some "100.00", some (8/10), some "llm-specialist", none, none, none⟩)]
    [("f", ⟨some "100", some (55/100), some "llm-primary", none, none, none⟩)]
    [("f", ⟨some "100.00", some (8/10), some "llm-specialist", none, none, none⟩)]
    "f"
    ⟨some "100", some (55/100), some "llm-primary", none, none, none⟩
    ⟨some "100.00", some (8/10), some "llm-specialist", none, none, none⟩
    ⟨some "100", some (55/100), some "llm-primary", none, none, none⟩
    ⟨some "100.00", some (8/10), some "llm-specialist", none, none, none⟩
    (by decide) (by decide) (by decide) (by rfl) (by rfl) (by rfl) (by rfl)
  have h1 := h.1 (by norm_num)
  simpa using h1

/-! ## Object-heap embedding of the merge functions (claim C10)

To settle the frame-condition claim the two merge functions are embedded a
second time over an explicit object heap: mapping dicts, entry dicts and
alternates lists are heap objects addressed by `Nat`; `deepcopy` allocates;
in-place mutation is a heap write.  The claim is then the statement that no
address that existed before the call is ever written. -/

/-- Entry dict on the heap; `alternates` holds the address of a list object. -/
structure HEntry where
  value : Option String
  confidence : Option ℚ
  source : Option String
  evidence : Option String
  notes : Option String
  alternates : Option Nat
deriving Repr, DecidableEq

/-- Heap objects: mapping dicts (field name → entry address), entry dicts, and
alternates lists (whose items are plain records, never mutated). -/
inductive HObj where
  | pmap (entries : List (String × Nat))
  | pent (e : HEntry)
  | palts (items : List AltEntry)
deriving Repr, DecidableEq

/-- The heap: address `a` holds `σ.get? a`; allocation appends. -/
abbrev Heap := List HObj

/-- Allocate a fresh object, returning its address. -/
def halloc (σ : Heap) (o : HObj) : Heap × Nat := (σ ++ [o], σ.length)

/-- Overwrite the object at an address (out-of-range writes are no-ops). -/
def hwrite (σ : Heap) (a : Nat) (o : HObj) : Heap := σ.set a o

/-- Read an entry dict (defensive default for malformed heaps). -/
def readEnt (σ : Heap) (a : Nat) : HEntry :=
  match σ.get? a with
  | some (.pent e) => e
  | _ => ⟨none, none, none, none, none, none⟩

/-- Read an alternates list (defensive default, mirroring the
`isinstance(..., list)` guards of the source). -/
def readAlts (σ : Heap) (a : Nat) : List AltEntry :=
  match σ.get? a with
  | some (.palts l) => l
  | _ => []

/-- The fresh base entry built by the first loop of `merge_field_mappings`. -/
def hBase (payload : HEntry) : HEntry :=
  { value := payload.value
    confidence := some (payload.confidence.getD 0)
    source := some (payload.source.getD "llm-primary")
    evidence := payload.evidence
    notes := none
    alternates := none }

/-- First loop of `merge_field_mappings` on the heap: one fresh entry dict per
primary field (non-dict payloads are skipped). -/
def mfmLoop1 (σ : Heap) (items : List (String × Nat)) :
    Heap × List (String × Nat) :=
  items.foldl (fun st p =>
    match st.1.get? p.2 with
    | some (.pent payload) =>
        let al := halloc st.1 (.pent (hBase payload))
        (al.1, alSet st.2 p.1 al.2)
    | _ => st) (σ, [])

/-- Python `alternates = entry.get("alternates") or []` followed by
`alternates.append(item)`: when the key is absent, or the stored list is empty
(falsy), a fresh list is created; the item is appended in place; the address of
the (possibly fresh) list is returned. -/
def appendAlt (σ : Heap) (alts : Option Nat) (item : AltEntry) : Heap × Nat :=
  let σl := match alts with
    | some l => if readAlts σ l = [] then halloc σ (.palts []) else (σ, l)
    | none => halloc σ (.palts [])
  (hwrite σl.1 σl.2 (.palts (readAlts σl.1 σl.2 ++ [item])), σl.2)

/-- Python `entry.setdefault("alternates", [])` for the entry at `ea`:
reuses the stored list when the key is present, otherwise allocates an empty
list and writes it into the entry dict. -/
def ensureAlts (σ : Heap) (ea : Nat) (e : HEntry) : Heap × Nat :=
  match e.alternates with
  | some l => (σ, l)
  | none =>
      let al := halloc σ (.palts [])
      (hwrite al.1 ea (.pent { e with alternates := some al.2 }), al.2)

/-- Python `lst.extend(items)` / `lst.append(item)` on the list object at `l`. -/
def extendAlts (σ : Heap) (l : Nat) (items : List AltEntry) : Heap :=
  hwrite σ l (.palts (readAlts σ l ++ items))

/-- Second loop of `merge_field_mappings` on the heap, one specialist field. -/
def mfmStepH (st : Heap × List (String × Nat)) (p : String × Nat) :
    Heap × List (String × Nat) :=
  match st.1.get? p.2 with
  | some (.pent payload) =>
      let specialist_conf : ℚ := payload.confidence.getD 0
      match alGet st.2 p.1 with
      | none =>
          let al := halloc st.1 (.pent
            { value := payload.value, confidence := some specialist_conf
              source := some (payload.source.getD "llm-specialist")
              evidence := payload.evidence, notes := none, alternates := none })
          (al.1, alSet st.2 p.1 al.2)
      | some ea =>
          let e := readEnt st.1 ea
          if specialist_conf ≥ e.confidence.getD 0 then
            let c := appendAlt st.1 e.alternates
              ⟨e.value, some (e.confidence.getD 0), some (e.source.getD "llm-primary")⟩
            let al := halloc c.1 (.pent
              { value := payload.value, confidence := some specialist_conf
                source := some (payload.source.getD "llm-specialist")
                evidence := payload.evidence, notes := none, alternates := some c.2 })
            (al.1, alSet st.2 p.1 al.2)
          else
            let c := appendAlt st.1 e.alternates
              ⟨payload.value, some specialist_conf,
                some (payload.source.getD "llm-specialist")⟩
            let σ3 := hwrite c.1 ea (.pent { e with alternates := some c.2 })
            (σ3, st.2)
  | _ => st

/-- `merge_field_mappings` on the heap: both loops, then the merged dict object
is materialized.  Returns the address of the merged mapping. -/
def merge_field_mappings_st (σ : Heap) (pa sa : Nat) : Heap × Nat :=
  let pitems := match σ.get? pa with | some (.pmap es) => es | _ => []
  let sitems := match σ.get? sa with | some (.pmap es) => es | _ => []
  let st1 := mfmLoop1 σ pitems
  let st2 := sitems.foldl mfmStepH st1
  halloc st2.1 (.pmap st2.2)

/-- `copy.deepcopy` of an alternates list object. -/
def deepcopyAlts (σ : Heap) (a : Nat) : Heap × Nat :=
  halloc σ (.palts (readAlts σ a))

/-- `copy.deepcopy` of an entry dict (copies the alternates list too). -/
def deepcopyEnt (σ : Heap) (a : Nat) : Heap × Nat :=
  let e := readEnt σ a
  match e.alternates with
  | some l =>
      let cl := deepcopyAlts σ l
      halloc cl.1 (.pent { e with alternates := some cl.2 })
  | none => halloc σ (.pent e)

/-- `copy.deepcopy` of the entries of a mapping dict. -/
def deepcopyEntries (σ : Heap) (items : List (String × Nat)) :
    Heap × List (String × Nat) :=
  items.foldl (fun st p =>
    let c := deepcopyEnt st.1 p.2
    (c.1, st.2 ++ [(p.1, c.2)])) (σ, [])

/-- `_build_alternates` on the heap (pure read). -/
def buildAltsH (σ : Heap) (e : HEntry) : List AltEntry :=
  match e.alternates with
  | none => []
  | some l => (readAlts σ l).map (fun item =>
      ⟨item.value, some (item.confidence.getD 0),
        some (item.source.getD (e.source.getD "vision"))⟩)

/-- Loop body of `merge_ocr_and_vision_results` on the heap. -/
def movStepH (st : Heap × List (String × Nat)) (p : String × Nat) :
    Heap × List (String × Nat) :=
  match st.1.get? p.2 with
  | some (.pent ve) =>
      let vision_conf : ℚ := ve.confidence.getD 0
      match alGet st.2 p.1 with
      | none =>
          let c := deepcopyEnt st.1 p.2
          let ce := readEnt c.1 c.2
          let σ2 := match ce.source with
            | none => hwrite c.1 c.2 (.pent { ce with source := some "vision" })
            | some _ => c.1
          (σ2, alSet st.2 p.1 c.2)
      | some ea =>
          let e := readEnt st.1 ea
          let ocr_conf : ℚ := e.confidence.getD 0
          if vision_conf > ocr_conf then
            let alts := buildAltsH st.1 e
            let c := deepcopyEnt st.1 p.2
            let ce := readEnt c.1 c.2
            let σl := ensureAlts c.1 c.2 ce
            let σ2 :=
              if alts ≠ [] then extendAlts σl.1 σl.2 alts
              else extendAlts σl.1 σl.2
                [⟨e.value, some ocr_conf, some (e.source.getD "ocr")⟩]
            (σ2, alSet st.2 p.1 c.2)
          else
            let altsV := buildAltsH st.1 ve
            let σl := ensureAlts st.1 ea e
            let σ2 := if altsV ≠ [] then extendAlts σl.1 σl.2 altsV else σl.1
            let σ3 := extendAlts σ2 σl.2
              [⟨ve.value, some vision_conf, some (ve.source.getD "vision")⟩]
            (σ3, st.2)
  | _ => st

/-- `merge_ocr_and_vision_results` on the heap: deep-copy the OCR mapping, fold
the vision mapping in, materialize the merged dict, return its address. -/
def merge_ocr_and_vision_results_st (σ : Heap) (oa va : Nat) : Heap × Nat :=
  let oitems := match σ.get? oa with | some (.pmap es) => es | _ => []
  let vitems := match σ.get? va with | some (.pmap es) => es | _ => []
  let st1 := deepcopyEntries σ oitems
  let st2 := vitems.foldl movStepH st1
  halloc st2.1 (.pmap st2.2)

/-- The heap extends `σ₀` without touching any of its addresses. -/
def FrameFrom (σ₀ σ : Heap) : Prop :=
  σ₀.length ≤ σ.length ∧ ∀ i, i < σ₀.length → σ.get? i = σ₀.get? i

theorem frameFrom_refl (σ : Heap) : FrameFrom σ σ := ⟨le_refl _, fun _ _ => rfl⟩

theorem frameFrom_trans {a b c : Heap} (h1 : FrameFrom a b) (h2 : FrameFrom b c) :
    FrameFrom a c :=
  ⟨le_trans h1.1 h2.1, fun i hi => (h2.2 i (lt_of_lt_of_le hi h1.1)).trans (h1.2 i hi)⟩

theorem frameFrom_halloc (σ : Heap) (o : HObj) : FrameFrom σ (σ ++ [o]) := by
  constructor
  · simp
  · intro i hi
    exact List.get?_append hi

theorem frameFrom_hwrite {σ₀ σ : Heap} (h : FrameFrom σ₀ σ) (a : Nat) (o : HObj)
    (ha : σ₀.length ≤ a) : FrameFrom σ₀ (hwrite σ a o) := by
  constructor
  · simp only [hwrite, List.length_set]; exact h.1
  · intro i hi
    simp only [hwrite]
    rw [List.get?_set_ne]
    · exact h.2 i hi
    · omega

/-- Every FRESH entry dict on the heap (address `≥ n₀`) has a fresh
alternates-list address.  Entries that predate the call are unconstrained. -/
def GoodH (n₀ : Nat) (σ : Heap) : Prop :=
  ∀ a, n₀ ≤ a → ∀ e, σ.get? a = some (.pent e) → ∀ l, e.alternates = some l → n₀ ≤ l

theorem hwrite_get_self (σ : Heap) (a : Nat) (o : HObj) (h : a < σ.length) :
    (hwrite σ a o).get? a = some o := by
  simp only [hwrite, List.get?_eq_getElem?]
  exact List.getElem?_set_eq_of_lt o h

theorem goodH_halloc {n₀ : Nat} {σ : Heap} (h : GoodH n₀ σ) (o : HObj)
    (ho : ∀ e, o = HObj.pent e → ∀ l, e.alternates = some l → n₀ ≤ l) :
    GoodH n₀ (σ ++ [o]) := by
  intro a ha e he l hl
  by_cases hlt : a < σ.length
  · rw [List.get?_append hlt] at he
    exact h a ha e he l hl
  · by_cases heq : a = σ.length
    · rw [heq, List.get?_concat_length] at he
      exact ho e (Option.some_inj.mp he) l hl
    · have hnone : (σ ++ [o]).get? a = none := by
        apply List.get?_eq_none.mpr
        simp only [List.length_append, List.length_singleton]
        omega
      rw [hnone] at he
      cases he

theorem goodH_hwrite {n₀ : Nat} {σ : Heap} (h : GoodH n₀ σ) (w : Nat) (o : HObj)
    (ho : ∀ e, o = HObj.pent e → ∀ l, e.alternates = some l → n₀ ≤ l) :
    GoodH n₀ (hwrite σ w o) := by
  intro a ha e he l hl
  by_cases hap : w = a
  · rw [← hap] at he
    by_cases hlt : w < σ.length
    · rw [hwrite_get_self σ w o hlt] at he
      exact ho e (Option.some_inj.mp he) l hl
    · simp only [hwrite] at he
      rw [List.set_eq_of_length_le (by omega)] at he
      rw [hap] at he
      exact h a ha e he l hl
  · simp only [hwrite] at he
    rw [List.get?_set_ne _ _ hap] at he
    exact h a ha e he l hl

theorem foldl_preserves {α β : Type} (P : α → Prop) (f : α → β → α)
    (h : ∀ a b, P a → P (f a b)) :
    ∀ (l : List β) (a : α), P a → P (l.foldl f a) := by
  intro l
  induction l with
  | nil => intro a ha; exact ha
  | cons b t ih =>
    intro a ha
    exact ih _ (h a b ha)

/-- Invariant carried through both heap merge loops: the original heap is
untouched, fresh entries have fresh alternates, and every address the merged
dict holds is fresh. -/
def MergeInv (σ₀ : Heap) (st : Heap × List (String × Nat)) : Prop :=
  FrameFrom σ₀ st.1 ∧ GoodH σ₀.length st.1 ∧ ∀ p ∈ st.2, σ₀.length ≤ p.2

/-- The alternates address of a fresh entry, as read back, is fresh. -/
theorem readEnt_alts_bound {n₀ : Nat} {σ : Heap} (h : GoodH n₀ σ) {ea : Nat}
    (hea : n₀ ≤ ea) :
    ∀ l, (readEnt σ ea).alternates = some l → n₀ ≤ l := by
  intro l hl
  unfold readEnt at hl
  cases hob : σ.get? ea with
  | none => rw [hob] at hl; cases hl
  | some o =>
    cases o with
    | pmap es => rw [hob] at hl; cases hl
    | palts items => rw [hob] at hl; cases hl
    | pent e =>
      rw [hob] at hl
      exact h ea hea e hob l hl

theorem mem_alSet_addr {merged : List (String × Nat)} {k : String} {a : Nat}
    {n₀ : Nat} (h : ∀ p ∈ merged, n₀ ≤ p.2) (ha : n₀ ≤ a) :
    ∀ p ∈ alSet merged k a, n₀ ≤ p.2 := by
  intro p hp
  rcases mem_alSet _ _ _ _ hp with hp | hp
  · rw [hp]; exact ha
  · exact h p hp

theorem mfmLoop1_inv (σ : Heap) (items : List (String × Nat)) :
    MergeInv σ (mfmLoop1 σ items) := by
  unfold mfmLoop1
  apply foldl_preserves (MergeInv σ)
  · intro st p hst
    obtain ⟨hF, hG, hM⟩ := hst
    cases hob : st.1.get? p.2 with
    | none => exact ⟨hF, hG, hM⟩
    | some o =>
      cases o with
      | pmap es => exact ⟨hF, hG, hM⟩
      | palts items2 => exact ⟨hF, hG, hM⟩
      | pent payload =>
        simp only [hob]
        refine ⟨frameFrom_trans hF (frameFrom_halloc _ _), ?_, ?_⟩
        · apply goodH_halloc hG
          intro e he l hl
          cases he
          simp [hBase] at hl
        · exact mem_alSet_addr hM (le_trans hF.1 (by simp [halloc]))
  · refine ⟨frameFrom_refl σ, ?_, fun p hp => by cases hp⟩
    intro a ha e he l hl
    rw [List.get?_eq_none.mpr ha] at he
    cases he

theorem appendAlt_spec (σ₀ : Heap) (σ : Heap) (alts : Option Nat) (item : AltEntry)
    (hF : FrameFrom σ₀ σ) (hG : GoodH σ₀.length σ)
    (halts : ∀ l, alts = some l → σ₀.length ≤ l) :
    FrameFrom σ₀ (appendAlt σ alts item).1 ∧
    σ₀.length ≤ (appendAlt σ alts item).2 ∧
    GoodH σ₀.length (appendAlt σ alts item).1 := by
  unfold appendAlt
  cases alts with
  | some l =>
    by_cases hl : readAlts σ l = []
    · simp only [hl, if_true]
      refine ⟨?_, ?_, ?_⟩
      · exact frameFrom_hwrite (frameFrom_trans hF (frameFrom_halloc _ _)) _ _
          (le_trans hF.1 (by simp [halloc]))
      · exact le_trans hF.1 (by simp [halloc])
      · apply goodH_hwrite (goodH_halloc hG _ (fun e he => by cases he))
        intro e he; cases he
    · simp only [hl, if_false]
      refine ⟨?_, ?_, ?_⟩
      · exact frameFrom_hwrite hF _ _ (halts l rfl)
      · exact halts l rfl
      · apply goodH_hwrite hG
        intro e he; cases he
  | none =>
    refine ⟨?_, ?_, ?_⟩
    · exact frameFrom_hwrite (frameFrom_trans hF (frameFrom_halloc _ _)) _ _
        (le_trans hF.1 (by simp [halloc]))
    · exact le_trans hF.1 (by simp [halloc])
    · apply goodH_hwrite (goodH_halloc hG _ (fun e he => by cases he))
      intro e he; cases he

theorem ensureAlts_spec (σ₀ : Heap) (σ : Heap) (ea : Nat) (e : HEntry)
    (hF : FrameFrom σ₀ σ) (hG : GoodH σ₀.length σ) (hea : σ₀.length ≤ ea)
    (halts : ∀ l, e.alternates = some l → σ₀.length ≤ l) :
    FrameFrom σ₀ (ensureAlts σ ea e).1 ∧
    σ₀.length ≤ (ensureAlts σ ea e).2 ∧
    GoodH σ₀.length (ensureAlts σ ea e).1 := by
  unfold ensureAlts
  cases hal : e.alternates with
  | some l => exact ⟨hF, halts l hal, hG⟩
  | none =>
    refine ⟨?_, ?_, ?_⟩
    · exact frameFrom_hwrite (frameFrom_trans hF (frameFrom_halloc _ _)) _ _
        (le_trans hea (by simp [halloc, hwrite]))
    · exact le_trans hF.1 (by simp [halloc])
    · apply goodH_hwrite (goodH_halloc hG _ (fun e2 he2 => by cases he2))
      intro e2 he2 l2 hl2
      cases he2
      simp at hl2
      exact hl2 ▸ le_trans hF.1 (by simp [halloc])

theorem extendAlts_spec (σ₀ : Heap) (σ : Heap) (l : Nat) (items : List AltEntry)
    (hF : FrameFrom σ₀ σ) (hG : GoodH σ₀.length σ) (hl : σ₀.length ≤ l) :
    FrameFrom σ₀ (extendAlts σ l items) ∧
    GoodH σ₀.length (extendAlts σ l items) := by
  unfold extendAlts
  exact ⟨frameFrom_hwrite hF _ _ hl,
    goodH_hwrite hG _ _ (fun e he => by cases he)⟩

theorem deepcopyEnt_spec (σ₀ : Heap) (σ : Heap) (a : Nat)
    (hF : FrameFrom σ₀ σ) (hG : GoodH σ₀.length σ) :
    FrameFrom σ₀ (deepcopyEnt σ a).1 ∧
    σ₀.length ≤ (deepcopyEnt σ a).2 ∧
    GoodH σ₀.length (deepcopyEnt σ a).1 := by
  unfold deepcopyEnt
  cases hal : (readEnt σ a).alternates with
  | some l =>
    simp only [hal]
    refine ⟨?_, ?_, ?_⟩
    · exact frameFrom_trans (frameFrom_trans hF (frameFrom_halloc _ _))
        (frameFrom_halloc _ _)
    · exact le_trans hF.1 (by simp [halloc, deepcopyAlts])
    · apply goodH_halloc (goodH_halloc hG _ (fun e he => by cases he))
      intro e he l2 hl2
      cases he
      simp at hl2
      exact hl2 ▸ le_trans hF.1 (by simp [halloc, deepcopyAlts])
  | none =>
    simp only [hal]
    refine ⟨?_, ?_, ?_⟩
    · exact frameFrom_trans hF (frameFrom_halloc _ _)
    · exact le_trans hF.1 (by simp [halloc])
    · apply goodH_halloc hG
      intro e he l2 hl2
      cases he
      rw [hal] at hl2
      cases hl2

theorem mfmStepH_inv (σ₀ : Heap) (st : Heap × List (String × Nat)) (p : String × Nat)
    (h : MergeInv σ₀ st) : MergeInv σ₀ (mfmStepH st p) := by
  obtain ⟨hF, hG, hM⟩ := h
  unfold mfmStepH
  cases hob : st.1.get? p.2 with
  | none => exact ⟨hF, hG, hM⟩
  | some o =>
    cases o with
    | pmap es => exact ⟨hF, hG, hM⟩
    | palts items => exact ⟨hF, hG, hM⟩
    | pent payload =>
      cases hex : alGet st.2 p.1 with
      | none =>
        refine ⟨frameFrom_trans hF (frameFrom_halloc _ _), ?_, ?_⟩
        · apply goodH_halloc hG
          intro e he l hl
          cases he
          simp at hl
        · exact mem_alSet_addr hM (le_trans hF.1 (by simp [halloc]))
      | some ea =>
        dsimp only
        have hmem : (p.1, ea) ∈ st.2 := alGet_eq_some_mem _ _ _ hex
        have hea : σ₀.length ≤ ea := hM _ hmem
        have halt := readEnt_alts_bound hG hea
        by_cases hcmp : payload.confidence.getD 0 ≥ (readEnt st.1 ea).confidence.getD 0
        · rw [if_pos hcmp]
          obtain ⟨hcF, hc2, hcG⟩ := appendAlt_spec σ₀ st.1 (readEnt st.1 ea).alternates
            ⟨(readEnt st.1 ea).value, some ((readEnt st.1 ea).confidence.getD 0),
              some ((readEnt st.1 ea).source.getD "llm-primary")⟩ hF hG halt
          refine ⟨frameFrom_trans hcF (frameFrom_halloc _ _), ?_, ?_⟩
          · apply goodH_halloc hcG
            intro e he l hl
            cases he
            simp at hl
            omega
          · exact mem_alSet_addr hM (le_trans hcF.1 (by simp [halloc]))
        · rw [if_neg hcmp]
          obtain ⟨hcF, hc2, hcG⟩ := appendAlt_spec σ₀ st.1 (readEnt st.1 ea).alternates
            ⟨payload.value, some (payload.confidence.getD 0),
              some (payload.source.getD "llm-specialist")⟩ hF hG halt
          refine ⟨frameFrom_hwrite hcF _ _ hea, ?_, hM⟩
          apply goodH_hwrite hcG
          intro e he l hl
          cases he
          simp at hl
          omega

theorem deepcopyEntries_inv (σ : Heap) (items : List (String × Nat)) :
    MergeInv σ (deepcopyEntries σ items) := by
  unfold deepcopyEntries
  apply foldl_preserves (MergeInv σ)
  · intro st p hst
    obtain ⟨hF, hG, hM⟩ := hst
    obtain ⟨hcF, hc2, hcG⟩ := deepcopyEnt_spec σ st.1 p.2 hF hG
    refine ⟨hcF, hcG, ?_⟩
    intro q hq
    rcases List.mem_append.mp hq with hq | hq
    · exact hM q hq
    · simp only [List.mem_singleton] at hq
      rw [hq]
      exact hc2
  · refine ⟨frameFrom_refl σ, ?_, fun p hp => by cases hp⟩
    intro a ha e he l hl
    rw [List.get?_eq_none.mpr ha] at he
    cases he

theorem movStepH_inv (σ₀ : Heap) (st : Heap × List (String × Nat)) (p : String × Nat)
    (h : MergeInv σ₀ st) : MergeInv σ₀ (movStepH st p) := by
  obtain ⟨hF, hG, hM⟩ := h
  unfold movStepH
  cases hob : st.1.get? p.2 with
  | none => exact ⟨hF, hG, hM⟩
  | some o =>
    cases o with
    | pmap es => exact ⟨hF, hG, hM⟩
    | palts items => exact ⟨hF, hG, hM⟩
    | pent ve =>
      cases hex : alGet st.2 p.1 with
      | none =>
        dsimp only
        obtain ⟨hcF, hc2, hcG⟩ := deepcopyEnt_spec σ₀ st.1 p.2 hF hG
        have hceAlt := readEnt_alts_bound hcG hc2
        cases hsrc : (readEnt (deepcopyEnt st.1 p.2).1 (deepcopyEnt st.1 p.2).2).source with
        | none =>
          dsimp only
          refine ⟨frameFrom_hwrite hcF _ _ hc2, ?_, ?_⟩
          · apply goodH_hwrite hcG
            intro e he l hl
            cases he
            simp at hl
            exact hceAlt l hl
          · exact mem_alSet_addr hM hc2
        | some src =>
          dsimp only
          exact ⟨hcF, hcG, mem_alSet_addr hM hc2⟩
      | some ea =>
        dsimp only
        have hmem : (p.1, ea) ∈ st.2 := alGet_eq_some_mem _ _ _ hex
        have hea : σ₀.length ≤ ea := hM _ hmem
        have halt := readEnt_alts_bound hG hea
        by_cases hcmp : ve.confidence.getD 0 > (readEnt st.1 ea).confidence.getD 0
        · rw [if_pos hcmp]
          obtain ⟨hcF, hc2, hcG⟩ := deepcopyEnt_spec σ₀ st.1 p.2 hF hG
          have hceAlt := readEnt_alts_bound hcG hc2
          obtain ⟨heF, he2, heG⟩ := ensureAlts_spec σ₀ (deepcopyEnt st.1 p.2).1
            (deepcopyEnt st.1 p.2).2
            (readEnt (deepcopyEnt st.1 p.2).1 (deepcopyEnt st.1 p.2).2)
            hcF hcG hc2 hceAlt
          by_cases hne : buildAltsH st.1 (readEnt st.1 ea) ≠ []
          · rw [if_pos hne]
            obtain ⟨hxF, hxG⟩ := extendAlts_spec σ₀ _ _ _ heF heG he2
            exact ⟨hxF, hxG, mem_alSet_addr hM hc2⟩
          · rw [if_neg hne]
            obtain ⟨hxF, hxG⟩ := extendAlts_spec σ₀ _ _ _ heF heG he2
            exact ⟨hxF, hxG, mem_alSet_addr hM hc2⟩
        · rw [if_neg hcmp]
          obtain ⟨heF, he2, heG⟩ := ensureAlts_spec σ₀ st.1 ea (readEnt st.1 ea)
            hF hG hea halt
          by_cases hne : buildAltsH st.1 ve ≠ []
          · rw [if_pos hne]
            obtain ⟨hxF, hxG⟩ := extendAlts_spec σ₀ _ _ _ heF heG he2
            obtain ⟨hyF, hyG⟩ := extendAlts_spec σ₀ _ _ _ hxF hxG he2
            exact ⟨hyF, hyG, hM⟩
          · rw [if_neg hne]
            obtain ⟨hyF, hyG⟩ := extendAlts_spec σ₀ _ _ _ heF heG he2
            exact ⟨hyF, hyG, hM⟩

/-- C10: neither merge ever mutates its input mappings.  Over the explicit
object heap, both `merge_field_mappings` and `merge_ocr_and_vision_results`
leave every pre-existing address — input mapping dicts, their entry dicts and
their alternates lists included — exactly as it was: all writes target
addresses allocated during the call (fresh dicts and deep copies). -/
theorem c10_merges_do_not_mutate_inputs (σ : Heap) (pa sa oa va : Nat) :
    (∀ i, i < σ.length → (merge_field_mappings_st σ pa sa).1.get? i = σ.get? i) ∧
    (∀ i, i < σ.length → (merge_ocr_and_vision_results_st σ oa va).1.get? i = σ.get? i) := by
  constructor
  · intro i hi
    have h1 := mfmLoop1_inv σ (match σ.get? pa with | some (.pmap es) => es | _ => [])
    have h2 := foldl_preserves (MergeInv σ) mfmStepH (fun st p h => mfmStepH_inv σ st p h)
      (match σ.get? sa with | some (.pmap es) => es | _ => []) _ h1
    exact (frameFrom_trans h2.1 (frameFrom_halloc _ _)).2 i hi
  · intro i hi
    have h1 := deepcopyEntries_inv σ (match σ.get? oa with | some (.pmap es) => es | _ => [])
    have h2 := foldl_preserves (MergeInv σ) movStepH (fun st p h => movStepH_inv σ st p h)
      (match σ.get? va with | some (.pmap es) => es | _ => []) _ h1
    exact (frameFrom_trans h2.1 (frameFrom_halloc _ _)).2 i hi

/-- C10 witness: the frame condition evaluated on a concrete four-object heap
holding two one-field mappings. -/
theorem c10_witness :
    (merge_field_mappings_st
        [.pmap [("f", 1)], .pent ⟨some "x", some (1/2), some "llm-primary", none, none, none⟩,
         .pmap [("f", 3)], .pent ⟨some "y", some (3/4), some "llm-specialist", none, none, none⟩]
        0 2).1.get? 1 =
      some (.pent ⟨some "x", some (1/2), some "llm-primary", none, none, none⟩) ∧
    (merge_ocr_and_vision_results_st
        [.pmap [("f", 1)], .pent ⟨some "x", some (1/2), some "llm-primary", none, none, none⟩,
         .pmap [("f", 3)], .pent ⟨some "y", some (3/4), some "vision", none, none, none⟩]
        0 2).1.get? 1 =
      some (.pent ⟨some "x", some (1/2), some "llm-primary", none, none, none⟩) := by
  constructor
  · have h := (c10_merges_do_not_mutate_inputs
      [.pmap [("f", 1)], .pent ⟨some "x", some (1/2), some "llm-primary", none, none, none⟩,
       .pmap [("f", 3)], .pent ⟨some "y", some (3/4), some "llm-specialist", none, none, none⟩]
      0 2 0 2).1 1 (by norm_num)
    rw [h]
    rfl
  · have h := (c10_merges_do_not_mutate_inputs
      [.pmap [("f", 1)], .pent ⟨some "x", some (1/2), some "llm-primary", none, none, none⟩,
       .pmap [("f", 3)], .pent ⟨some "y", some (3/4), some "vision", none, none, none⟩]
      0 2 0 2).2 1 (by norm_num)
    rw [h]
    rfl

/-! ## A model of `json.loads` on the fragment this code exchanges

Used by `_safe_json_loads` (PrimaryMapper) and `_parse_field_mappings`
(VisionFallback).  Parsed values are dynamic Python values. -/

/-- A parsed JSON value (= the Python value `json.loads` returns). -/
inductive PyVal where
  | null
  | bool (b : Bool)
  | num (q : ℚ)
  | str (s : String)
  | arr (items : List PyVal)
  | obj (fields : List (String × PyVal))
deriving Repr

/-- JSON whitespace accepted by Python between tokens. -/
def isJsonWs (c : Char) : Bool := c = ' ' ∨ c = '\t' ∨ c = '\n' ∨ c = '\x0d'

def skipWsJ (cs : List Char) : List Char := cs.dropWhile isJsonWs

def hexVal (c : Char) : Option Nat :=
  if '0' ≤ c ∧ c ≤ '9' then some (c.toNat - 48)
  else if 'a' ≤ c ∧ c ≤ 'f' then some (c.toNat - 87)
  else if 'A' ≤ c ∧ c ≤ 'F' then some (c.toNat - 55)
  else none

/-- Body of a JSON string after the opening quote (strict mode: raw control
characters are rejected; `\\uXXXX` is decoded without surrogate pairing, which
none of the exchanged payloads use). -/
def simpleEscape (e : Char) : Option Char :=
  if e = '"' then some '"'
  else if e = '\\' then some '\\'
  else if e = '/' then some '/'
  else if e = 'b' then some '\x08'
  else if e = 'f' then some '\x0c'
  else if e = 'n' then some '\n'
  else if e = 'r' then some '\x0d'
  else if e = 't' then some '\t'
  else none

def parseStrChars : List Char → Option (List Char × List Char)
  | [] => none
  | c :: rest =>
    if c = '"' then some ([], rest)
    else if c = '\\' then
      match rest with
      | [] => none
      | 'u' :: h1 :: h2 :: h3 :: h4 :: rest3 =>
        (match hexVal h1, hexVal h2, hexVal h3, hexVal h4 with
          | some a, some b, some c2, some d =>
            match parseStrChars rest3 with
            | some (tail, rest4) =>
                some (Char.ofNat (((a * 16 + b) * 16 + c2) * 16 + d) :: tail, rest4)
            | none => none
          | _, _, _, _ => none)
      | e :: rest2 =>
        match simpleEscape e with
        | some ch =>
          match parseStrChars rest2 with
          | some (tail, rest4) => some (ch :: tail, rest4)
          | none => none
        | none => none
    else if c.toNat < 32 then none
    else
      match parseStrChars rest with
      | some (tail, rest4) => some (c :: tail, rest4)
      | none => none

def digitSpan (cs : List Char) : List Char × List Char :=
  (cs.takeWhile (fun c => '0' ≤ c ∧ c ≤ '9'), cs.dropWhile (fun c => '0' ≤ c ∧ c ≤ '9'))

def digitsToNat (ds : List Char) : Nat :=
  ds.foldl (fun acc c => acc * 10 + (c.toNat - 48)) 0

/-- JSON number grammar (no leading zeros, optional fraction and exponent). -/
def parseNumber (cs : List Char) : Option (ℚ × List Char) :=
  let signed := cs.head? = some '-'
  let cs1 := if signed then cs.tail else cs
  let sp := digitSpan cs1
  match sp.1 with
  | [] => none
  | d :: ds =>
    if d = '0' ∧ ds ≠ [] then none
    else
      let intPart : ℚ := (digitsToNat (d :: ds) : ℚ)
      let afterInt := sp.2
      let fr : Option (ℚ × List Char) :=
        match afterInt with
        | '.' :: cs2 =>
          let fsp := digitSpan cs2
          match fsp.1 with
          | [] => none
          | _ => some ((digitsToNat fsp.1 : ℚ) / ((10 : ℚ) ^ fsp.1.length), fsp.2)
        | _ => some (0, afterInt)
      match fr with
      | none => none
      | some (fracPart, afterFrac) =>
        let ex : Option (Int × List Char) :=
          match afterFrac with
          | e :: cs3 =>
            if e = 'e' ∨ e = 'E' then
              let negE := cs3.head? = some '-'
              let cs4 := if cs3.head? = some '-' ∨ cs3.head? = some '+' then cs3.tail else cs3
              let esp := digitSpan cs4
              match esp.1 with
              | [] => none
              | _ => some (if negE then -(digitsToNat esp.1 : Int)
                           else (digitsToNat esp.1 : Int), esp.2)
            else some (0, afterFrac)
          | [] => some (0, afterFrac)
        match ex with
        | none => none
        | some (expPart, rest) =>
          let scale : ℚ :=
            if expPart < 0 then 1 / (10 : ℚ) ^ (-expPart).toNat
            else (10 : ℚ) ^ expPart.toNat
          let mag : ℚ := (intPart + fracPart) * scale
          some (if signed then -mag else mag, rest)

mutual

/-- Recursive-descent JSON value parser (fuel-bounded). -/
def parseVal : Nat → List Char → Option (PyVal × List Char)
  | 0, _ => none
  | _ + 1, [] => none
  | fuel + 1, c :: rest =>
    if c = '"' then
      match parseStrChars rest with
      | some (body, rest2) => some (.str ⟨body⟩, rest2)
      | none => none
    else if c = '[' then
      match skipWsJ rest with
      | ']' :: rest2 => some (.arr [], rest2)
      | cs2 => parseArrItems fuel cs2 []
    else if c = '{' then
      match skipWsJ rest with
      | '}' :: rest2 => some (.obj [], rest2)
      | cs2 => parseObjItems fuel cs2 []
    else if c = 'n' then
      match c :: rest with
      | 'n' :: 'u' :: 'l' :: 'l' :: rest2 => some (.null, rest2)
      | _ => none
    else if c = 't' then
      match c :: rest with
      | 't' :: 'r' :: 'u' :: 'e' :: rest2 => some (.bool true, rest2)
      | _ => none
    else if c = 'f' then
      match c :: rest with
      | 'f' :: 'a' :: 'l' :: 's' :: 'e' :: rest2 => some (.bool false, rest2)
      | _ => none
    else
      match parseNumber (c :: rest) with
      | some (q, rest2) => some (.num q, rest2)
      | none => none

/-- Comma-separated array items up to the closing bracket. -/
def parseArrItems : Nat → List Char → List PyVal → Option (PyVal × List Char)
  | 0, _, _ => none
  | fuel + 1, cs, acc =>
    match parseVal fuel cs with
    | none => none
    | some (v, rest) =>
      match skipWsJ rest with
      | ',' :: rest2 => parseArrItems fuel (skipWsJ rest2) (acc ++ [v])
      | ']' :: rest2 => some (.arr (acc ++ [v]), rest2)
      | _ => none

/-- Comma-separated `"key": value` pairs up to the closing brace. -/
def parseObjItems : Nat → List Char → List (String × PyVal) → Option (PyVal × List Char)
  | 0, _, _ => none
  | fuel + 1, cs, acc =>
    match cs with
    | '"' :: cs1 =>
      match parseStrChars cs1 with
      | none => none
      | some (key, rest) =>
        match skipWsJ rest with
        | ':' :: rest2 =>
          match parseVal fuel (skipWsJ rest2) with
          | none => none
          | some (v, rest3) =>
            match skipWsJ rest3 with
            | ',' :: rest4 => parseObjItems fuel (skipWsJ rest4) (acc ++ [(⟨key⟩, v)])
            | '}' :: rest4 => some (.obj (acc ++ [(⟨key⟩, v)]), rest4)
            | _ => none
        | _ => none
    | _ => none

end

/-- `json.loads`: parse a complete document; trailing non-whitespace is the
"Extra data" error, modelled as failure. -/
def json_loads (s : String) : Option PyVal :=
  match parseVal (2 * s.length + 2) (skipWsJ s.toList) with
  | some (v, rest) => if skipWsJ rest = [] then some v else none
  | none => none

/-- Python truthiness of a parsed JSON value. -/
def pyTruthy : PyVal → Bool
  | .null => false
  | .bool b => b
  | .num q => q ≠ 0
  | .str s => s ≠ ""
  | .arr l => !l.isEmpty
  | .obj d => !d.isEmpty

/-- Python `str.startswith` on character lists. -/
def listStartsWith (pre cs : List Char) : Bool := cs.take pre.length = pre

/-- Python `str.endswith` on character lists. -/
def listEndsWith (suf cs : List Char) : Bool :=
  suf.length ≤ cs.length ∧ cs.drop (cs.length - suf.length) = suf

/-- `AIFieldMapper._strip_code_fences` (ai_field_mapper.py, lines 1030-1042). -/
def strip_code_fences (response_text : String) : String :=
  let text := (pyStrip response_text).toList
  let text :=
    if listStartsWith "```json".toList text then text.drop 7
    else if listStartsWith "```".toList text then text.drop 3
    else text
  let text := if listEndsWith "```".toList text then text.take (text.length - 3) else text
  pyStrip ⟨text⟩

/-- Scan loop of `_extract_json_object`: the first balanced top-level
`\x7b...\x7d` block, scanning raw characters (braces inside JSON strings
count, as in the source). -/
def ejoGo (cs : List Char) (orig : List Char) (index depth : Nat)
    (start : Option Nat) : Option String :=
  match cs with
  | [] => none
  | c :: rest =>
    if c = Char.ofNat 123 then
      let start2 := if depth = 0 then some index else start
      ejoGo rest orig (index + 1) (depth + 1) start2
    else if c = Char.ofNat 125 then
      if depth ≠ 0 then
        if depth - 1 = 0 ∧ start.isSome then
          some ⟨(orig.drop (start.getD 0)).take (index + 1 - start.getD 0)⟩
        else ejoGo rest orig (index + 1) (depth - 1) start
      else ejoGo rest orig (index + 1) depth start
    else ejoGo rest orig (index + 1) depth start

/-- `AIFieldMapper._extract_json_object` (ai_field_mapper.py, lines 1044-1060). -/
def extract_json_object (response_text : String) : Option String :=
  ejoGo response_text.toList response_text.toList 0 0 none

/-- `AIFieldMapper._safe_json_loads` (ai_field_mapper.py, lines 1062-1078):
direct parse, then fence-stripped parse, then balanced-brace extraction;
`none` models the escaping `JSONDecodeError`. -/
def safe_json_loads (response_text : String) : Option PyVal :=
  match json_loads response_text with
  | some v => some v
  | none =>
    let cleaned := strip_code_fences response_text
    match (if cleaned ≠ response_text then json_loads cleaned else none) with
    | some v => some v
    | none =>
      let src := if cleaned ≠ "" then cleaned else response_text
      match extract_json_object src with
      | some extracted => json_loads extracted
      | none => none

/-! ## VisionFallback response parsing (smart_vision_fallback.py, claim C6) -/

/-- Python `repr`/`str` of a parsed JSON value (containers rendered
recursively; its only role in the embedded code paths is producing a
non-empty display string). -/
def pyRepr : PyVal → String
  | .null => "None"
  | .bool true => "True"
  | .bool false => "False"
  | .num q => if q.den = 1 then toString q.num else toString q
  | .str s =>
      let sq : String := ⟨[Char.ofNat 39]⟩
      sq ++ s ++ sq
  | .arr items => "[" ++ String.intercalate ", "
      (items.attach.map (fun x => pyRepr x.1)) ++ "]"
  | .obj fields =>
      let sq : String := ⟨[Char.ofNat 39]⟩
      ⟨[Char.ofNat 123]⟩ ++ String.intercalate ", "
        (fields.attach.map (fun x => sq ++ x.1.1 ++ sq ++ ": " ++ pyRepr x.1.2)) ++
        ⟨[Char.ofNat 125]⟩
decreasing_by
  · have h := List.sizeOf_lt_of_mem x.2
    simp only [PyVal.arr.sizeOf_spec]
    omega
  · have h := List.sizeOf_lt_of_mem x.2
    have h2 : sizeOf x.1.2 ≤ sizeOf x.1 := by
      obtain ⟨⟨s, v⟩, hm⟩ := x
      simp
    simp only [PyVal.obj.sizeOf_spec]
    omega

/-- Python `str()` of a parsed JSON value. -/
def pyStr : PyVal → String
  | .str s => s
  | v => pyRepr v

/-- `_text_value_from_piece` (smart_openai.py, lines 52-93), on parsed JSON
pieces (the `getattr` branches of the source return `None` for plain dicts). -/
def text_value_from_piece (piece : PyVal) : Option String :=
  match piece with
  | .obj d =>
    let step1 : Option String :=
      match alGet d "value" with
      | some v =>
        if pyTruthy v then
          (let vs := pyStrip (pyStr v); if vs ≠ "" then some vs else none)
        else none
      | none => none
    match step1 with
    | some r => some r
    | none =>
      let text_obj := match alGet d "text" with
        | none => alGet d "value"
        | some t => some t
      match text_obj with
      | none => none
      | some t =>
        let step2 : Option String :=
          match t with
          | .obj td =>
            let v2 := match alGet td "value" with
              | some x => if pyTruthy x then some x else alGet td "text"
              | none => alGet td "text"
            match v2 with
            | some x =>
              if pyTruthy x then
                (let vs := pyStrip (pyStr x); if vs ≠ "" then some vs else none)
              else none
            | none => none
          | _ => none
        match step2 with
        | some r => some r
        | none =>
          let ts := pyStrip (pyStr t)
          if ts ≠ "" then some ts else none
  | _ => none

/-- `_iter_content_items` (smart_openai.py, lines 35-49) over a parsed output
list: content lists of each block, `None` items dropped; non-list contents
contribute nothing (iterating a string yields bare characters, from which
`_text_value_from_piece` extracts nothing). -/
def iter_content_items (output : List PyVal) : List PyVal :=
  output.foldr (fun block acc =>
    match block with
    | .obj d =>
      match alGet d "content" with
      | some c =>
        if pyTruthy c then
          (match c with
            | .arr items => items.filter (fun i => match i with | .null => false | _ => true)
            | _ => []) ++ acc
        else acc
      | none => acc
    | _ => acc) []

/-- `extract_reasoning_response_text` (smart_openai.py, lines 96-122) on a
parsed-JSON response payload; the `output_text` attribute fallback of the
source applies only to SDK objects, never to dicts, hence `none` here. -/
def extract_reasoning_response_text (resp : PyVal) : Option String :=
  match resp with
  | .obj d =>
    match alGet d "output" with
    | some o =>
      if pyTruthy o then
        let parts := (match o with
          | .arr blocks => iter_content_items blocks
          | _ => []).filterMap text_value_from_piece
        let combined := pyStrip (String.join parts)
        if combined ≠ "" then some combined else none
      else none
    | none => none
  | _ => none

/-- An entry normalized by `_normalize_field_mapping`. -/
structure VEntry where
  value : PyVal
  confidence : ℚ
  source : PyVal
  alternates : Option (List PyVal)
deriving Repr

/-- Python `float(x)` on a decimal string (sign, digits, optional fraction and
exponent; this suffices for the confidence payloads the parser feeds it). -/
def parseFloatStr (s : String) : Option ℚ :=
  let cs := (pyStrip s).toList
  let signed := cs.head? = some '-'
  let cs1 := if cs.head? = some '-' ∨ cs.head? = some '+' then cs.tail else cs
  let ip := digitSpan cs1
  let fr : Option (ℚ × List Char) :=
    match ip.2 with
    | '.' :: cs2 =>
      let fsp := digitSpan cs2
      if ip.1 = [] ∧ fsp.1 = [] then none
      else some ((digitsToNat fsp.1 : ℚ) / ((10 : ℚ) ^ fsp.1.length), fsp.2)
    | _ => if ip.1 = [] then none else some (0, ip.2)
  match fr with
  | none => none
  | some (fracPart, afterFrac) =>
    let ex : Option (Int × List Char) :=
      match afterFrac with
      | e :: cs3 =>
        if e = 'e' ∨ e = 'E' then
          let negE := cs3.head? = some '-'
          let cs4 := if cs3.head? = some '-' ∨ cs3.head? = some '+' then cs3.tail else cs3
          let esp := digitSpan cs4
          match esp.1 with
          | [] => none
          | _ => some (if negE then -(digitsToNat esp.1 : Int)
                       else (digitsToNat esp.1 : Int), esp.2)
        else none
      | [] => some (0, afterFrac)
    match ex with
    | none => none
    | some (expPart, rest) =>
      if rest ≠ [] then none
      else
        let scale : ℚ :=
          if expPart < 0 then 1 / (10 : ℚ) ^ (-expPart).toNat
          else (10 : ℚ) ^ expPart.toNat
        let mag : ℚ := ((digitsToNat ip.1 : ℚ) + fracPart) * scale
        some (if signed then -mag else mag)

/-- Python `float(x)` on a parsed JSON value; `none` models the
`TypeError`/`ValueError` the call sites catch. -/
def pyFloat : PyVal → Option ℚ
  | .num q => some q
  | .bool true => some 1
  | .bool false => some 0
  | .str s => parseFloatStr s
  | _ => none

/-- `_normalize_field_mapping` (smart_vision_fallback.py, lines 332-366). -/
def normalize_field_mapping (mapping : List (String × PyVal)) :
    List (String × VEntry) :=
  mapping.foldl (fun acc p =>
    match p.2 with
    | .null => acc
    | .obj entry =>
      let confidence0 := (alGet entry "confidence").getD
        ((alGet entry "score").getD (.num 0))
      let confidence := (pyFloat confidence0).getD 0
      let base : VEntry :=
        { value := (alGet entry "value").getD .null
          confidence := confidence
          source := (alGet entry "source").getD (.str "vision")
          alternates := none }
      let entry2 := match alGet entry "alternates" with
        | some (.arr l) => { base with alternates := some l }
        | _ => base
      alSet acc p.1 entry2
    | other => alSet acc p.1 ⟨other, 0, .str "vision", none⟩) []

/-- `SmartVisionFallback._extract_from_dict` (lines 319-329). -/
def extract_from_dict (payload : List (String × PyVal)) : List (String × VEntry) :=
  match alGet payload "field_mappings" with
  | some (.obj m) => normalize_field_mapping m
  | _ =>
    match alGet payload "fields" with
    | some (.obj m) => normalize_field_mapping m
    | _ => []

/-- `SmartVisionFallback._parse_field_mappings` (lines 273-317) on a
parsed-JSON response payload: structured dicts are accepted; otherwise the
text is given ONE plain `json.loads` — there is no fence stripping and no
balanced-brace extraction on this path, and any failure yields `{}`.
(Non-string `output_text`/`text` payload values, which would make the source
raise a `TypeError` further down, are out of the model.) -/
def parse_field_mappings (payload : PyVal) : List (String × VEntry) :=
  let viaDict := match payload with
    | .obj d => extract_from_dict d
    | _ => []
  if !viaDict.isEmpty then viaDict
  else
    let t0 := extract_reasoning_response_text payload
    let t1 : Option String := match t0 with
      | some s => some s
      | none =>
        match payload with
        | .obj d =>
          (match alGet d "output_text" with
            | some (.str s) => if s ≠ "" then some s else none
            | _ => none).orElse (fun _ =>
          match alGet d "text" with
            | some (.str s) => if s ≠ "" then some s else none
            | _ => none)
        | _ => none
    match t1 with
    | none => []
    | some t =>
      match json_loads t with
      | none => []
      | some (.obj d2) => extract_from_dict d2
      | some _ => []

/-- C6: the vision-fallback parser is NOT tolerant the way the claim states.
For a code-fenced payload of the exact shape the repository's own test
`test_parse_handles_markdown_json_block` feeds it, and for a free-text answer
containing a valid `field_mappings` JSON object, `_parse_field_mappings`
returns the empty map — its only parsing attempt is one plain `json.loads`,
with no code-fence stripping and no balanced-brace extraction — while
PrimaryMapper's `_safe_json_loads` strategy (which the spec says this parser
shares) recovers the very same payloads. -/
theorem c6_vision_parser_not_tolerant :
    parse_field_mappings (.obj [("text", .str
      "```json\n\x7b\"field_mappings\": \x7b\"invoice_no\": \x7b\"value\": \"V123\", \"source\": \"vision\"\x7d\x7d\x7d\n```")]) = [] ∧
    parse_field_mappings (.obj [("text", .str
      "Sonuç: \x7b\"field_mappings\": \x7b\"invoice_no\": \x7b\"value\": \"V123\"\x7d\x7d\x7d")]) = [] ∧
    safe_json_loads
      "```json\n\x7b\"field_mappings\": \x7b\"invoice_no\": \x7b\"value\": \"V123\", \"source\": \"vision\"\x7d\x7d\x7d\n```" =
      some (.obj [("field_mappings", .obj [("invoice_no", .obj
        [("value", .str "V123"), ("source", .str "vision")])])]) ∧
    safe_json_loads
      "Sonuç: \x7b\"field_mappings\": \x7b\"invoice_no\": \x7b\"value\": \"V123\"\x7d\x7d\x7d" =
      some (.obj [("field_mappings", .obj [("invoice_no", .obj
        [("value", .str "V123")])])]) := by
  set_option maxRecDepth 10000 in
  exact ⟨rfl, rfl, rfl, rfl⟩

/-! ## PrimaryMapper response parsing and evidence fallback
(ai_field_mapper.py, claim C4) -/

/-- Python `dict.get(key)`: an absent key yields `None`. -/
def pyGet (d : List (String × PyVal)) (k : String) : PyVal :=
  (alGet d k).getD .null

/-- Inner loop of `_extract_evidence_match` (ai_field_mapper.py, lines
1102-1109): the first dict in a `patterns` list holding a non-empty
`matches` list yields `str(matches[0]).strip()`. -/
def firstPatternMatch : List PyVal → Option String
  | [] => none
  | .obj es :: rest =>
    (match alGet es "matches" with
     | some (.arr (m :: _)) => some (pyStrip (pyStr m))
     | _ => firstPatternMatch rest)
  | _ :: rest => firstPatternMatch rest

/-- The `value` fallback of `_extract_evidence_match` (lines 1111-1116):
`value not in (None, "")`. -/
def evidenceValueFallback (es : List (String × PyVal)) : Option String :=
  match alGet es "value" with
  | none => none
  | some .null => none
  | some (.str "") => none
  | some v => some (pyStrip (pyStr v))

/-- `AIFieldMapper._extract_evidence_match` (ai_field_mapper.py, lines
1094-1116). -/
def extract_evidence_match : PyVal → Option String
  | .obj es =>
    (match alGet es "matches" with
     | some (.arr (m :: _)) => some (pyStrip (pyStr m))
     | _ =>
       match alGet es "patterns" with
       | some (.arr ps) =>
         (match firstPatternMatch ps with
          | some s => some s
          | none => evidenceValueFallback es)
       | _ => evidenceValueFallback es)
  | _ => none

/-- `AIFieldMapper._evidence_confidence` (ai_field_mapper.py, lines
1118-1142): base `0.6`, raised to `0.9` for a `template`/`regex`/`hint`
source and to `0.8` for any other non-empty source, raised to at least
`0.75` for the `auto_date`/`auto_number` heuristics, recursively maxed with
the first (non-empty) dict of a `patterns` list, and clamped by
`max(0.0, min(…, 0.95))`. -/
def evidence_confidence (v : PyVal) : ℚ :=
  match v with
  | .obj es =>
    let source := pyLower (pyStr ((alGet es "source").getD (.str "")))
    let pattern := pyLower (pyStr ((alGet es "pattern").getD (.str "")))
    let base0 : ℚ :=
      if source = "template" ∨ source = "regex" ∨ source = "hint" then 9/10
      else if source ≠ "" then 4/5
      else 3/5
    let base1 :=
      if pattern = "auto_date" ∨ pattern = "auto_number" then max base0 (3/4)
      else base0
    let base2 :=
      match hpat : alGet es "patterns" with
      | some (.arr ps) =>
        (match hfind : ps.find? (fun q => match q with | .obj _ => true | _ => false) with
         | some q =>
           if pyTruthy q then max base1 (evidence_confidence q) else base1
         | none => base1)
      | _ => base1
    max 0 (min base2 (19/20))
  | _ => 3/5
termination_by sizeOf v
decreasing_by
  have hq := List.sizeOf_lt_of_mem (List.mem_of_find?_eq_some hfind)
  have hm := List.sizeOf_lt_of_mem (alGet_eq_some_mem _ _ _ hpat)
  simp only [PyVal.obj.sizeOf_spec, PyVal.arr.sizeOf_spec, Prod.mk.sizeOf_spec] at *
  omega

/-- The nested `patterns` recursion of `_evidence_confidence` contributes
nothing: the `patterns` key is absent, not a list, or its first dict is
empty (falsy) — the shape of every evidence entry `_pre_detect_fields`
produces. -/
def patternsInert (es : List (String × PyVal)) : Prop :=
  match alGet es "patterns" with
  | some (.arr ps) =>
    (match ps.find? (fun q => match q with | .obj _ => true | _ => false) with
     | some q => pyTruthy q = false
     | none => True)
  | _ => True

/-- `AIFieldMapper._describe_evidence_source` (ai_field_mapper.py, lines
1144-1165). Every branch of the source returns a non-empty description, so
the `for pattern_info in patterns` loop always returns at its first
element. -/
def describe_evidence_source (v : PyVal) : String :=
  match v with
  | .obj es =>
    let pattern := pyLower (pyStr ((alGet es "pattern").getD (.str "")))
    if pattern = "auto_date" ∨ pattern = "auto_number" then
      "Ön tespit (" ++ pattern ++ ")"
    else if pyTruthy (pyGet es "source") then
      "Regex eşleşmesi (" ++ pyStr (pyGet es "source") ++ ")"
    else
      match hpat : alGet es "patterns" with
      | some (.arr (p :: _)) => describe_evidence_source p
      | _ => "Regex ön tespiti"
  | _ => "Ön tespit"
termination_by sizeOf v
decreasing_by
  have hm := List.sizeOf_lt_of_mem (alGet_eq_some_mem _ _ _ hpat)
  simp only [PyVal.obj.sizeOf_spec, PyVal.arr.sizeOf_spec, Prod.mk.sizeOf_spec,
    List.cons.sizeOf_spec] at *
  omega

/-- The field-metadata dict built identically by `_parse_ai_response`,
`_build_partial_mapping_from_evidence` and `_create_empty_mapping`
(`.get` accesses only, so it never raises). -/
structure PMeta where
  data_type : PyVal
  required : Bool
  regex_hint : PyVal
  ocr_psm : PyVal
  ocr_roi : PyVal
deriving Repr

def fieldMeta (field : List (String × PyVal)) : PMeta :=
  { data_type := pyGet field "data_type"
    required := pyTruthy (pyGet field "required")
    regex_hint := pyGet field "regex_hint"
    ocr_psm := pyGet field "ocr_psm"
    ocr_roi := pyGet field "ocr_roi" }

/-- A per-field mapping entry produced by PrimaryMapper response handling. -/
structure PMapEntry where
  value : PyVal
  confidence : ℚ
  source : PyVal
  data_type : PyVal
  required : Bool
  metadata : PMeta
deriving Repr

/-- The result dict of `_parse_ai_response` and its fallbacks; `error` is
`none` exactly when the success path popped the key. -/
structure MapResult where
  field_mappings : List (String × PMapEntry)
  overall_confidence : PyVal
  error : Option String
deriving Repr

/-- Loop body of `_build_partial_mapping_from_evidence` (ai_field_mapper.py,
lines 1178-1211); the accumulator carries the `field_mappings` dict and the
`confidences` list. Field names are modelled as strings (the shape every
caller supplies); a falsy `field_name` is skipped as in the source. -/
def bpmeStep (evidence_map : List (String × PyVal))
    (acc : List (String × PMapEntry) × List ℚ)
    (field : List (String × PyVal)) : List (String × PMapEntry) × List ℚ :=
  match pyGet field "field_name" with
  | .str fname =>
    if fname = "" then acc
    else
      let base : PMapEntry :=
        { value := .null
          confidence := 0
          source := .str "Bulunamadı"
          data_type := pyGet field "data_type"
          required := pyTruthy (pyGet field "required")
          metadata := fieldMeta field }
      let ev := pyGet evidence_map fname
      match extract_evidence_match ev with
      | some v =>
        if v = "" then (alSet acc.1 fname base, acc.2)
        else
          (alSet acc.1 fname
            { base with
                value := .str v
                confidence := evidence_confidence ev
                source := .str (describe_evidence_source ev) },
           acc.2 ++ [evidence_confidence ev])
      | none => (alSet acc.1 fname base, acc.2)
  | _ => acc

/-- `AIFieldMapper._build_partial_mapping_from_evidence` (ai_field_mapper.py,
lines 1167-1219). -/
def build_partial_mapping_from_evidence
    (template_fields : List (List (String × PyVal)))
    (field_evidence : Option (List (String × PyVal)))
    (error_msg : String) : MapResult :=
  let evidence_map := field_evidence.getD []
  let res := template_fields.foldl (bpmeStep evidence_map) ([], [])
  { field_mappings := res.1
    overall_confidence :=
      .num (if res.2.isEmpty then 0 else res.2.sum / (res.2.length : ℚ))
    error := some error_msg }

/-- `str(KeyError(k))`: the missing key in single quotes. -/
def keyErr (k : String) : String := pyRepr (.str k)

/-- Abbreviated message of the `ValueError`/`TypeError` raised by
`float(mapping.get('confidence', 0.0))`. -/
def floatErr : PyVal → String
  | .str s => "could not convert string to float: " ++ pyRepr (.str s)
  | _ => "float() argument must be a string or a real number"

/-- Python `needle in hay` on strings: substring containment. -/
def listIsInfix (needle hay : List Char) : Bool :=
  (List.range (hay.length + 1)).any (fun i => listStartsWith needle (hay.drop i))

/-- Loop of `_create_empty_mapping` (ai_field_mapper.py, lines 1295-1332).
`field['data_type']` (inside the entry literal) and `field['field_name']`
(the subscript target) are direct subscripts evaluated in that order, so a
missing key raises a `KeyError` that escapes (`Except.error`). Non-string
field names (impossible for DB-backed templates) are keyed by their
rendering. -/
def ceLoop : List (List (String × PyVal)) → List (String × PMapEntry) →
    Except String (List (String × PMapEntry))
  | [], acc => .ok acc
  | field :: rest, acc =>
    match alGet field "data_type" with
    | none => .error (keyErr "data_type")
    | some dt =>
      match alGet field "field_name" with
      | none => .error (keyErr "field_name")
      | some fnameV =>
        let fname := match fnameV with | .str s => s | v => pyStr v
        ceLoop rest (alSet acc fname
          { value := .null
            confidence := 0
            source := .str "Hata oluştu"
            data_type := dt
            required := pyTruthy (pyGet field "required")
            metadata := fieldMeta field })

/-- `AIFieldMapper._create_empty_mapping` (ai_field_mapper.py, lines
1295-1332). -/
def create_empty_mapping (template_fields : List (List (String × PyVal)))
    (error_msg : String) : Except String MapResult :=
  match ceLoop template_fields [] with
  | .ok fm =>
    .ok { field_mappings := fm
          overall_confidence := .num 0
          error := some error_msg }
  | .error e => .error e

/-- Success-path loop of `_parse_ai_response` (ai_field_mapper.py, lines
1250-1283). `field['field_name']` is a direct subscript (`KeyError`); the
`field_name in mappings` test follows Python semantics for dict, string
(substring, then `TypeError` at the string subscript) and list payloads
(only string elements can equal the string key, then `TypeError` at the
list subscript); other payloads raise `TypeError` at `in`; a non-dict hit
raises `AttributeError` at `mapping.get('value')`; `float()` failure and
the `field['data_type']` subscript raise inside the entry literal, in
source order. The error strings are abbreviated exception messages; they
land in the generic `except` handler of `_parse_ai_response`. Non-string
field names (impossible for DB-backed templates) are modelled as
unmatched. -/
def psLoop (mappings : PyVal) :
    List (List (String × PyVal)) → List (String × PMapEntry) →
    Except String (List (String × PMapEntry))
  | [], acc => .ok acc
  | field :: rest, acc =>
    match alGet field "field_name" with
    | none => .error (keyErr "field_name")
    | some fnameV =>
      let fkey := match fnameV with | .str s => s | v => pyStr v
      let notFound : Except String (List (String × PMapEntry)) :=
        match alGet field "data_type" with
        | none => .error (keyErr "data_type")
        | some dt =>
          psLoop mappings rest (alSet acc fkey
            { value := .null
              confidence := 0
              source := .str "Bulunamadı"
              data_type := dt
              required := pyTruthy (pyGet field "required")
              metadata := fieldMeta field })
      match mappings with
      | .obj ms =>
        (match (match fnameV with | .str s => alGet ms s | _ => none) with
         | some (.obj mp) =>
           (match pyFloat ((alGet mp "confidence").getD (.num 0)) with
            | none => .error (floatErr ((alGet mp "confidence").getD (.num 0)))
            | some conf =>
              match alGet field "data_type" with
              | none => .error (keyErr "data_type")
              | some dt =>
                psLoop mappings rest (alSet acc fkey
                  { value := pyGet mp "value"
                    confidence := conf
                    source := (alGet mp "source").getD (.str "")
                    data_type := dt
                    required := pyTruthy (pyGet field "required")
                    metadata := fieldMeta field }))
         | some _ => .error ("object has no attribute " ++ keyErr "get")
         | none => notFound)
      | .str ss =>
        (match fnameV with
         | .str s =>
           if listIsInfix s.toList ss.toList then
             .error "string indices must be integers"
           else notFound
         | _ => .error "in <string> requires string as left operand")
      | .arr l =>
        (match fnameV with
         | .str s =>
           if l.any (fun x => match x with | .str t => t = s | _ => false) then
             .error "list indices must be integers or slices, not str"
           else notFound
         | _ => notFound)
      | _ => .error "argument of type is not iterable"

/-- `AIFieldMapper._parse_ai_response` (ai_field_mapper.py, lines 1221-1293).
A `json.JSONDecodeError` from `_safe_json_loads` (modelled by `none`) takes
the evidence-fallback path; any other exception in the success path lands in
the generic handler, which calls `_create_empty_mapping(str(e))`;
`Except.error` models an exception escaping the function (possible only when
`_create_empty_mapping` itself raises inside that handler). -/
def parse_ai_response (response_text : String)
    (template_fields : List (List (String × PyVal)))
    (field_evidence : Option (List (String × PyVal))) :
    Except String MapResult :=
  match safe_json_loads response_text with
  | none =>
    .ok (build_partial_mapping_from_evidence template_fields field_evidence
      "JSON parse hatası")
  | some ai =>
    match ai with
    | .obj ad =>
      let overall := (alGet ad "overall_confidence").getD (.num (1/2))
      let mappings := (alGet ad "mappings").getD (.obj [])
      (match psLoop mappings template_fields [] with
       | .ok fm =>
         .ok { field_mappings := fm
               overall_confidence := overall
               error := none }
       | .error e => create_empty_mapping template_fields e)
    | _ => create_empty_mapping template_fields
        ("object has no attribute " ++ keyErr "get")

/-- `alSet` keeps every key retrievable. -/
theorem alGet_alSet_isSome {α : Type} (m : List (String × α)) (k k2 : String)
    (v : α) (h : (alGet m k2).isSome) : (alGet (alSet m k v) k2).isSome := by
  by_cases hk : k = k2
  · subst hk
    rw [alGet_alSet_self]
    rfl
  · rw [alGet_alSet_ne m k k2 v hk]
    exact h

/-- `bpmeStep` keeps every key of the accumulator retrievable. -/
theorem bpmeStep_isSome (em : List (String × PyVal))
    (acc : List (String × PMapEntry) × List ℚ)
    (field : List (String × PyVal)) (k : String)
    (h : (alGet acc.1 k).isSome) : (alGet (bpmeStep em acc field).1 k).isSome := by
  unfold bpmeStep
  split
  · split
    · exact h
    · dsimp only
      split
      · split
        · exact alGet_alSet_isSome _ _ _ _ h
        · exact alGet_alSet_isSome _ _ _ _ h
      · exact alGet_alSet_isSome _ _ _ _ h
  · exact h

/-- `bpmeStep` records an entry for the field it processes. -/
theorem bpmeStep_self (em : List (String × PyVal))
    (acc : List (String × PMapEntry) × List ℚ)
    (field : List (String × PyVal)) (fname : String)
    (hf : pyGet field "field_name" = .str fname) (hne : fname ≠ "") :
    (alGet (bpmeStep em acc field).1 fname).isSome := by
  unfold bpmeStep
  simp only [hf]
  rw [if_neg hne]
  split
  · split
    · rw [alGet_alSet_self]; rfl
    · rw [alGet_alSet_self]; rfl
  · rw [alGet_alSet_self]; rfl

/-- The `_build_partial_mapping_from_evidence` fold keeps keys retrievable. -/
theorem bpme_fold_isSome (em : List (String × PyVal))
    (tfs : List (List (String × PyVal)))
    (acc : List (String × PMapEntry) × List ℚ) (k : String)
    (h : (alGet acc.1 k).isSome) :
    (alGet (tfs.foldl (bpmeStep em) acc).1 k).isSome := by
  induction tfs generalizing acc with
  | nil => exact h
  | cons g gs ih =>
    rw [List.foldl_cons]
    exact ih _ (bpmeStep_isSome em acc g k h)

/-- Every string-named template field ends up with an entry. -/
theorem bpme_fold_cover (em : List (String × PyVal))
    (tfs : List (List (String × PyVal)))
    (acc : List (String × PMapEntry) × List ℚ)
    (field : List (String × PyVal)) (hmem : field ∈ tfs) (fname : String)
    (hf : pyGet field "field_name" = .str fname) (hne : fname ≠ "") :
    (alGet (tfs.foldl (bpmeStep em) acc).1 fname).isSome := by
  induction tfs generalizing acc with
  | nil => cases hmem
  | cons g gs ih =>
    rw [List.foldl_cons]
    rcases List.mem_cons.mp hmem with hg | hg
    · subst hg
      exact bpme_fold_isSome em gs _ fname (bpmeStep_self em acc field fname hf hne)
    · exact ih _ hg

/-- `bpmeStep` preserves key distinctness. -/
theorem bpmeStep_nodup (em : List (String × PyVal))
    (acc : List (String × PMapEntry) × List ℚ)
    (field : List (String × PyVal)) (h : nodupKeys acc.1) :
    nodupKeys (bpmeStep em acc field).1 := by
  unfold bpmeStep
  split
  · split
    · exact h
    · dsimp only
      split
      · split
        · exact nodupKeys_alSet _ _ _ h
        · exact nodupKeys_alSet _ _ _ h
      · exact nodupKeys_alSet _ _ _ h
  · exact h

/-- The `_build_partial_mapping_from_evidence` fold preserves key
distinctness. -/
theorem bpme_fold_nodup (em : List (String × PyVal))
    (tfs : List (List (String × PyVal)))
    (acc : List (String × PMapEntry) × List ℚ) (h : nodupKeys acc.1) :
    nodupKeys (tfs.foldl (bpmeStep em) acc).1 := by
  induction tfs generalizing acc with
  | nil => exact h
  | cons g gs ih =>
    rw [List.foldl_cons]
    exact ih _ (bpmeStep_nodup em acc g h)

/-- `_evidence_confidence` always lands in `[0.6, 0.95]`: the base starts at
`0.6` and is only ever raised, and the final `max(0.0, min(…, 0.95))` caps
it. -/
theorem evidence_confidence_bounds (v : PyVal) :
    3/5 ≤ evidence_confidence v ∧ evidence_confidence v ≤ 19/20 := by
  unfold evidence_confidence
  cases v
  case obj es =>
    constructor
    · refine le_trans (le_min ?_ (by norm_num)) (le_max_right _ _)
      split
      · split
        · split
          · refine le_trans ?_ (le_max_left _ _)
            split_ifs <;> norm_num [max_def]
          · split_ifs <;> norm_num [max_def]
        · split_ifs <;> norm_num [max_def]
      · split_ifs <;> norm_num [max_def]
    · exact max_le (by norm_num) (min_le_right _ _)
  all_goals constructor <;> norm_num

/-- The provenance tiers of `_evidence_confidence` on evidence whose
`patterns` key contributes nothing: `0.9` for a `template`/`regex`/`hint`
source, `0.8` for ANY other non-empty source, and only for an empty source
`0.75` for the `auto_date`/`auto_number` heuristics and `0.6` otherwise. -/
theorem evidence_confidence_tiers (es : List (String × PyVal)) (s p : String)
    (hs : pyStr ((alGet es "source").getD (.str "")) = s)
    (hp : pyStr ((alGet es "pattern").getD (.str "")) = p)
    (hin : patternsInert es) :
    evidence_confidence (.obj es) =
      (if pyLower s = "template" ∨ pyLower s = "regex" ∨ pyLower s = "hint"
         then 9/10
       else if pyLower s ≠ "" then 4/5
       else if pyLower p = "auto_date" ∨ pyLower p = "auto_number" then 3/4
       else 3/5) := by
  unfold patternsInert at hin
  conv_lhs => rw [evidence_confidence]
  split
  · rename_i ps heq
    rw [heq] at hin
    dsimp only at hin
    split
    · rename_i q hfind
      rw [hfind] at hin
      dsimp only at hin
      rw [hs, hp, if_neg (by simp [hin])]
      split_ifs <;> norm_num [max_def, min_def]
    · rw [hs, hp]
      split_ifs <;> norm_num [max_def, min_def]
  · rw [hs, hp]
    split_ifs <;> norm_num [max_def, min_def]

/-- C4: after an unrecoverable JSON parse failure, `_parse_ai_response`
returns the evidence-synthesized partial mapping with the error note
`JSON parse hatası`; that mapping covers every (string-named) template field
exactly once; every evidence confidence lies in `[0.6, 0.95]`; and on
evidence whose `patterns` list contributes nothing the confidence is `0.9`
for `template`/`regex`/`hint` provenance, `0.8` for every other non-empty
source (NOT the claimed `0.6`), else `0.75` for the `auto_date`/
`auto_number` heuristics and `0.6` otherwise. -/
theorem c4_evidence_fallback :
    (∀ (response_text : String) (tfs : List (List (String × PyVal)))
       (fe : Option (List (String × PyVal))),
       safe_json_loads response_text = none →
       parse_ai_response response_text tfs fe =
         .ok (build_partial_mapping_from_evidence tfs fe "JSON parse hatası")) ∧
    (∀ (tfs : List (List (String × PyVal)))
       (fe : Option (List (String × PyVal))) (emsg : String),
       (build_partial_mapping_from_evidence tfs fe emsg).error = some emsg ∧
       nodupKeys (build_partial_mapping_from_evidence tfs fe emsg).field_mappings ∧
       (∀ field ∈ tfs, ∀ fname : String,
          pyGet field "field_name" = .str fname → fname ≠ "" →
          (alGet (build_partial_mapping_from_evidence tfs fe
            emsg).field_mappings fname).isSome)) ∧
    (∀ ev : PyVal,
       3/5 ≤ evidence_confidence ev ∧ evidence_confidence ev ≤ 19/20) ∧
    (∀ (es : List (String × PyVal)) (s p : String),
       pyStr ((alGet es "source").getD (.str "")) = s →
       pyStr ((alGet es "pattern").getD (.str "")) = p →
       patternsInert es →
       evidence_confidence (.obj es) =
         (if pyLower s = "template" ∨ pyLower s = "regex" ∨ pyLower s = "hint"
            then 9/10
          else if pyLower s ≠ "" then 4/5
          else if pyLower p = "auto_date" ∨ pyLower p = "auto_number" then 3/4
          else 3/5)) := by
  refine ⟨?_, ?_, evidence_confidence_bounds, evidence_confidence_tiers⟩
  · intro response_text tfs fe hfail
    unfold parse_ai_response
    rw [hfail]
  · intro tfs fe emsg
    refine ⟨rfl, bpme_fold_nodup _ tfs ([], []) (by simp [nodupKeys]), ?_⟩
    intro field hmem fname hf hne
    exact bpme_fold_cover _ tfs ([], []) field hmem fname hf hne

/-- Witness for C4 at concrete inputs: a non-JSON model answer falls back to
the evidence synthesis; the synthesized map has the error note and an entry
for the template field; confidences are bounded; and a `template`-sourced
match gets confidence `0.9`. -/
theorem c4_witness :
    parse_ai_response "model cevabı JSON içermiyor"
        [[("field_name", PyVal.str "Tarih"), ("data_type", PyVal.str "date")]]
        none =
      .ok (build_partial_mapping_from_evidence
        [[("field_name", PyVal.str "Tarih"), ("data_type", PyVal.str "date")]]
        none "JSON parse hatası") ∧
    (build_partial_mapping_from_evidence
        [[("field_name", PyVal.str "Tarih"), ("data_type", PyVal.str "date")]]
        none "JSON parse hatası").error = some "JSON parse hatası" ∧
    (alGet (build_partial_mapping_from_evidence
        [[("field_name", PyVal.str "Tarih"), ("data_type", PyVal.str "date")]]
        none "JSON parse hatası").field_mappings "Tarih").isSome = true ∧
    (3/5 ≤ evidence_confidence (PyVal.str "serbest") ∧
      evidence_confidence (PyVal.str "serbest") ≤ 19/20) ∧
    evidence_confidence (PyVal.obj
      [("source", PyVal.str "Template"),
       ("matches", PyVal.arr [PyVal.str "A1"])]) = 9/10 := by
  refine ⟨c4_evidence_fallback.1 _ _ _ rfl,
    (c4_evidence_fallback.2.1 _ _ _).1,
    ?_,
    c4_evidence_fallback.2.2.1 _,
    ?_⟩
  · exact (c4_evidence_fallback.2.1
      [[("field_name", PyVal.str "Tarih"), ("data_type", PyVal.str "date")]]
      none "JSON parse hatası").2.2 _ (List.mem_singleton.mpr rfl) "Tarih" rfl
      (by decide)
  · have h := c4_evidence_fallback.2.2.2
      [("source", PyVal.str "Template"), ("matches", PyVal.arr [PyVal.str "A1"])]
      "Template" "" rfl rfl trivial
    rw [h]
    have hlow : pyLower "Template" = "template" := rfl
    rw [hlow]
    rw [if_pos (Or.inl rfl)]

/-- C4 counterexample to the claimed tier table: an auto-learned hint match
(source `auto-learning`, which is neither `template`/`regex` provenance nor
an `auto_date`/`auto_number` heuristic) is synthesized with confidence `0.8`,
not the claimed `0.6`. -/
theorem c4_counterexample :
    parse_ai_response "Yanıt JSON formatında değil"
        [[("field_name", PyVal.str "Tutar"), ("data_type", PyVal.str "number")]]
        (some [("Tutar", PyVal.obj
          [("pattern", PyVal.str "-?\\d+"),
           ("source", PyVal.str "auto-learning"),
           ("matches", PyVal.arr [PyVal.str "1500"])])]) =
      .ok (build_partial_mapping_from_evidence
        [[("field_name", PyVal.str "Tutar"), ("data_type", PyVal.str "number")]]
        (some [("Tutar", PyVal.obj
          [("pattern", PyVal.str "-?\\d+"),
           ("source", PyVal.str "auto-learning"),
           ("matches", PyVal.arr [PyVal.str "1500"])])]) "JSON parse hatası") ∧
    (alGet (build_partial_mapping_from_evidence
        [[("field_name", PyVal.str "Tutar"), ("data_type", PyVal.str "number")]]
        (some [("Tutar", PyVal.obj
          [("pattern", PyVal.str "-?\\d+"),
           ("source", PyVal.str "auto-learning"),
           ("matches", PyVal.arr [PyVal.str "1500"])])])
        "JSON parse hatası").field_mappings "Tutar").map PMapEntry.confidence =
      some (4/5) ∧
    ¬ ((4 : ℚ)/5 = 3/5) := by
  refine ⟨rfl, ?_, by norm_num⟩
  have h : (alGet (build_partial_mapping_from_evidence
      [[("field_name", PyVal.str "Tutar"), ("data_type", PyVal.str "number")]]
      (some [("Tutar", PyVal.obj
        [("pattern", PyVal.str "-?\\d+"),
         ("source", PyVal.str "auto-learning"),
         ("matches", PyVal.arr [PyVal.str "1500"])])])
      "JSON parse hatası").field_mappings "Tutar").map PMapEntry.confidence =
      some (evidence_confidence (PyVal.obj
        [("pattern", PyVal.str "-?\\d+"),
         ("source", PyVal.str "auto-learning"),
         ("matches", PyVal.arr [PyVal.str "1500"])])) := rfl
  rw [h]
  rw [evidence_confidence_tiers
    [("pattern", PyVal.str "-?\\d+"),
     ("source", PyVal.str "auto-learning"),
     ("matches", PyVal.arr [PyVal.str "1500"])]
    "auto-learning" "-?\\d+" rfl rfl trivial]
  have hlow : pyLower "auto-learning" = "auto-learning" := rfl
  rw [hlow]
  rw [if_neg (by decide), if_pos (by decide)]

/-! ## EvidenceDetector generic heuristics (ai_field_mapper.py, lines
932-964, claim C7) -/

/-- Python regex `\w` (word character): ASCII letters, digits, underscore,
and the Turkish letters of the texts this repository processes (Python
`\w` is fully Unicode-aware; the model covers the alphabet the matcher
meets). -/
def isWordChar (c : Char) : Bool :=
  c.isAlphanum || c = '_' ||
  ['ç', 'ğ', 'ı', 'ö', 'ş', 'ü', 'Ç', 'Ğ', 'İ', 'Ö', 'Ş', 'Ü'].contains c

/-- A date separator `[-./]`. -/
def sepOk (c : Char) : Bool := c = '.' ∨ c = '/' ∨ c = '-'

/-- Length of the ASCII-digit prefix (`\d` on the digits these texts hold). -/
def digitsPrefix (cs : List Char) : Nat :=
  (cs.takeWhile (fun c => c.isDigit)).length

/-- Trailing `\b` after a digit: the next character is absent or non-word. -/
def wordBoundaryAfter : List Char → Bool
  | [] => true
  | c :: _ => !isWordChar c

/-- First hit of a backtracking alternative list. -/
def firstSome {α : Type} : List (Option α) → Option α
  | [] => none
  | some a :: _ => some a
  | none :: rest => firstSome rest

/-- Hand-compiled matcher for `\b\d{1,2}[-./]\d{1,2}[-./]\d{2,4}\b` at the
head of `cs` (the leading `\b` is checked by the scanner): alternatives are
tried in Python backtracking order (greedy counts first); the result is the
match length. -/
def dateAt (cs : List Char) : Option Nat :=
  firstSome ([2, 1].map (fun n1 =>
    if n1 ≤ digitsPrefix cs then
      match cs.drop n1 with
      | c1 :: r1 =>
        if sepOk c1 then
          firstSome ([2, 1].map (fun n2 =>
            if n2 ≤ digitsPrefix r1 then
              match r1.drop n2 with
              | c2 :: r2 =>
                if sepOk c2 then
                  firstSome ([4, 3, 2].map (fun n3 =>
                    if n3 ≤ digitsPrefix r2 ∧ wordBoundaryAfter (r2.drop n3) then
                      some (n1 + 1 + n2 + 1 + n3)
                    else none))
                else none
              | [] => none
            else none))
        else none
      | [] => none
    else none))

/-- Maximal run of `(?:[.,]\d{3})` groups (each group is deterministic:
one separator plus exactly three digits); fuel-driven, one group per fuel
unit suffices. -/
def starCountGo : Nat → List Char → Nat
  | 0, _ => 0
  | fuel + 1, c :: rest =>
    if (c = '.' ∨ c = ',') ∧ 3 ≤ digitsPrefix rest then
      1 + starCountGo fuel (rest.drop 3)
    else 0
  | _ + 1, [] => 0

/-- Backtracking alternatives of the optional `(?:[.,]\d+)?` group, longest
first (`\d+` is greedy and backtracks down to one digit), as consumed
lengths; the empty alternative is appended by the caller. -/
def optCands (after : List Char) : List Nat :=
  match after with
  | c :: ds =>
    if c = '.' ∨ c = ',' then
      (List.range (digitsPrefix ds)).reverse.map (fun j => 1 + (j + 1))
    else []
  | [] => []

/-- Hand-compiled matcher for `\b\d{1,3}(?:[.,]\d{3})*(?:[.,]\d+)?\b` at the
head of `cs`, in Python backtracking order: integer digits greedy, then the
thousands-group star count from maximal down, then the optional decimal
group longest first, then the trailing `\b`. -/
def numberAt (cs : List Char) : Option Nat :=
  firstSome ([3, 2, 1].map (fun n1 =>
    if n1 ≤ digitsPrefix cs then
      firstSome ((List.range (starCountGo (cs.drop n1).length (cs.drop n1) + 1)).reverse.map
        (fun k =>
          firstSome ((optCands ((cs.drop n1).drop (4 * k)) ++ [0]).map (fun olen =>
            if wordBoundaryAfter (((cs.drop n1).drop (4 * k)).drop olen) then
              some (n1 + 4 * k + olen)
            else none))))
    else none))

/-- `re.findall` scan loop for a pattern that always starts with a digit:
left to right, non-overlapping, a match attempted only where the leading
`\b` holds (the previous character is absent or non-word); fuel-driven,
one consumed character per fuel unit suffices. -/
def reScanGo (matchAt : List Char → Option Nat) :
    Nat → List Char → Bool → List String
  | 0, _, _ => []
  | _ + 1, [], _ => []
  | fuel + 1, c :: rest, prevWord =>
    if prevWord then reScanGo matchAt fuel rest (isWordChar c)
    else
      match matchAt (c :: rest) with
      | some n =>
        (⟨(c :: rest).take n⟩ : String) ::
          reScanGo matchAt fuel (rest.drop (n - 1)) true
      | none => reScanGo matchAt fuel rest (isWordChar c)

/-- `re.findall(r"\b\d{1,2}[-./]\d{1,2}[-./]\d{2,4}\b", text)` (line 933). -/
def dateFindall (s : String) : List String :=
  reScanGo dateAt s.toList.length s.toList false

/-- `re.findall(r"\b\d{1,3}(?:[.,]\d{3})*(?:[.,]\d+)?\b", text)` (lines
947-950). -/
def numberFindall (s : String) : List String :=
  reScanGo numberAt s.toList.length s.toList false

/-- `list(dict.fromkeys(xs))`: duplicates removed, first occurrences kept
in order. -/
def dedupStr (xs : List String) : List String :=
  xs.foldl (fun acc x => if x ∈ acc then acc else acc ++ [x]) []

/-- The `{'pattern': …, 'matches': …}` evidence dict of the heuristics. -/
def autoEntry (pat : String) (ms : List String) : PyVal :=
  .obj [("pattern", .str pat), ("matches", .arr (ms.map PyVal.str))]

/-- One iteration of the per-field heuristics loops (lines 936-945 and
953-963): the entry is assigned iff the declared type matches, the field is
not in the evidence dict yet, and the deduped match list is non-empty.
Field names are modelled as strings (the shape every caller supplies). -/
def heurStep (typeName : String) (entry : PyVal) (ok : Bool)
    (ev : List (String × PyVal)) (field : List (String × PyVal)) :
    List (String × PyVal) :=
  match pyGet field "field_name", pyGet field "data_type" with
  | .str fname, .str dt =>
    if dt = typeName ∧ (alGet ev fname).isNone ∧ ok then alSet ev fname entry
    else ev
  | _, _ => ev

/-- Stage 2 of `AIFieldMapper._pre_detect_fields` (ai_field_mapper.py,
lines 932-964): the generic date and number heuristics, applied to the
evidence dict as it stands after the explicit-pattern stage. -/
def pre_detect_heuristics (ocr_text : String)
    (template_fields : List (List (String × PyVal)))
    (evidence : List (String × PyVal)) : List (String × PyVal) :=
  let ev1 :=
    if (dateFindall ocr_text).isEmpty then evidence
    else template_fields.foldl
      (heurStep "date"
        (autoEntry "auto_date" ((dedupStr (dateFindall ocr_text)).take 3))
        (!((dedupStr (dateFindall ocr_text)).take 3).isEmpty))
      evidence
  if (numberFindall ocr_text).isEmpty then ev1
  else template_fields.foldl
    (heurStep "number"
      (autoEntry "auto_number" ((dedupStr (numberFindall ocr_text)).take 5))
      (!((dedupStr (numberFindall ocr_text)).take 5).isEmpty))
    ev1

/-- A `heurStep` application either leaves a key unchanged or assigns the
heuristic entry to a previously-absent key of a matching field. -/
theorem heurStep_cases (tn : String) (e : PyVal) (ok : Bool)
    (ev : List (String × PyVal)) (field : List (String × PyVal)) (k : String) :
    alGet (heurStep tn e ok ev field) k = alGet ev k ∨
    (alGet ev k = none ∧ alGet (heurStep tn e ok ev field) k = some e ∧
     pyGet field "field_name" = .str k ∧ pyGet field "data_type" = .str tn) := by
  unfold heurStep
  split
  · rename_i fname dt hf hd
    split
    · rename_i hcond
      by_cases hk : fname = k
      · subst hk
        right
        obtain ⟨h1, h2, h3⟩ := hcond
        exact ⟨by simpa using h2, alGet_alSet_self _ _ _, hf, by rw [hd, h1]⟩
      · left
        exact alGet_alSet_ne _ _ _ _ hk
    · left; rfl
  · left; rfl

/-- The heuristics fold never touches a key that already has evidence. -/
theorem heur_fold_preserve (tn : String) (e : PyVal) (ok : Bool)
    (tfs : List (List (String × PyVal))) (ev : List (String × PyVal))
    (k : String) (h : (alGet ev k).isSome) :
    alGet (tfs.foldl (heurStep tn e ok) ev) k = alGet ev k := by
  induction tfs generalizing ev with
  | nil => rfl
  | cons g gs ih =>
    rw [List.foldl_cons]
    rcases heurStep_cases tn e ok ev g k with hc | hc
    · rw [ih _ (by rw [hc]; exact h), hc]
    · exfalso
      rw [hc.1] at h
      exact Bool.noConfusion h

/-- On a previously-absent key the heuristics fold either adds nothing or
adds exactly the heuristic entry, and then only for a field of the matching
declared type with that name. -/
theorem heur_fold_none (tn : String) (e : PyVal) (ok : Bool)
    (tfs : List (List (String × PyVal))) (ev : List (String × PyVal))
    (k : String) (h : alGet ev k = none) :
    alGet (tfs.foldl (heurStep tn e ok) ev) k = none ∨
    (alGet (tfs.foldl (heurStep tn e ok) ev) k = some e ∧
     ∃ field ∈ tfs, pyGet field "field_name" = .str k ∧
       pyGet field "data_type" = .str tn) := by
  induction tfs generalizing ev with
  | nil => left; exact h
  | cons g gs ih =>
    rw [List.foldl_cons]
    rcases heurStep_cases tn e ok ev g k with hc | hc
    · rcases ih _ (hc.trans h) with h2 | ⟨h2, f, hfm, hfs⟩
      · left; exact h2
      · right
        exact ⟨h2, f, List.mem_cons_of_mem _ hfm, hfs⟩
    · right
      constructor
      · rw [heur_fold_preserve tn e ok gs _ k (by rw [hc.2.1]; rfl), hc.2.1]
      · exact ⟨g, List.mem_cons_self _ _, hc.2.2.1, hc.2.2.2⟩

/-- C7: the generic heuristics stage touches no field that already has
evidence; on an evidence-free field it can only install the auto_date entry
(for a date-typed field of that name) or the auto_number entry (for a
number-typed field of that name), carrying the first at most 3 (dates),
respectively at most 5 (numbers), distinct matches in text order; and on
`Invoice Date: 12/05/2024, Total: 1.234,56` a number-typed field with no
prior evidence receives matches `["12", "05", "1.234,56"]`, which include
`1.234,56`. -/
theorem c7_generic_heuristics :
    (∀ (t : String) (tfs : List (List (String × PyVal)))
       (ev : List (String × PyVal)) (k : String),
       (alGet ev k).isSome →
       alGet (pre_detect_heuristics t tfs ev) k = alGet ev k) ∧
    (∀ (t : String) (tfs : List (List (String × PyVal)))
       (ev : List (String × PyVal)) (k : String),
       alGet ev k = none →
       alGet (pre_detect_heuristics t tfs ev) k = none ∨
       (alGet (pre_detect_heuristics t tfs ev) k =
          some (autoEntry "auto_date" ((dedupStr (dateFindall t)).take 3)) ∧
        ∃ field ∈ tfs, pyGet field "field_name" = .str k ∧
          pyGet field "data_type" = .str "date") ∨
       (alGet (pre_detect_heuristics t tfs ev) k =
          some (autoEntry "auto_number" ((dedupStr (numberFindall t)).take 5)) ∧
        ∃ field ∈ tfs, pyGet field "field_name" = .str k ∧
          pyGet field "data_type" = .str "number")) ∧
    (∀ t : String, ((dedupStr (dateFindall t)).take 3).length ≤ 3 ∧
       ((dedupStr (numberFindall t)).take 5).length ≤ 5) ∧
    (numberFindall "Invoice Date: 12/05/2024, Total: 1.234,56" =
       ["12", "05", "1.234,56"] ∧
     dateFindall "Invoice Date: 12/05/2024, Total: 1.234,56" =
       ["12/05/2024"] ∧
     alGet (pre_detect_heuristics "Invoice Date: 12/05/2024, Total: 1.234,56"
        [[("field_name", PyVal.str "Total"), ("data_type", PyVal.str "number")]]
        []) "Total" =
       some (autoEntry "auto_number" ["12", "05", "1.234,56"]) ∧
     "1.234,56" ∈ (dedupStr (numberFindall
        "Invoice Date: 12/05/2024, Total: 1.234,56")).take 5) := by
  refine ⟨?_, ?_, fun t => ⟨List.length_take_le _ _, List.length_take_le _ _⟩,
    ?_, ?_, ?_, ?_⟩
  · intro t tfs ev k h
    unfold pre_detect_heuristics
    by_cases hn : (numberFindall t).isEmpty <;>
      by_cases hd : (dateFindall t).isEmpty <;>
        simp only [hn, hd, if_true, if_false, Bool.false_eq_true, ite_true,
          ite_false]
    all_goals first
      | rw [heur_fold_preserve _ _ _ tfs ev k h]
      | rw [heur_fold_preserve _ _ _ tfs _ k
          (by rw [heur_fold_preserve _ _ _ tfs ev k h]; exact h),
          heur_fold_preserve _ _ _ tfs ev k h]
      | rfl
  · intro t tfs ev k h
    unfold pre_detect_heuristics
    by_cases hn : (numberFindall t).isEmpty <;>
      by_cases hd : (dateFindall t).isEmpty <;>
        simp only [hn, hd, if_true, if_false, Bool.false_eq_true, ite_true,
          ite_false]
    · left; exact h
    · rcases heur_fold_none "date" _ _ tfs ev k h with h2 | ⟨h2, f, hfm, hfs⟩
      · left; exact h2
      · right; left; exact ⟨h2, f, hfm, hfs⟩
    · rcases heur_fold_none "number" _ _ tfs ev k h with h2 | ⟨h2, f, hfm, hfs⟩
      · left; exact h2
      · right; right; exact ⟨h2, f, hfm, hfs⟩
    · rcases heur_fold_none "date" _ _ tfs ev k h with h2 | ⟨h2, f, hfm, hfs⟩
      · rcases heur_fold_none "number" _ _ tfs _ k h2 with h3 | ⟨h3, g, hgm, hgs⟩
        · left; exact h3
        · right; right; exact ⟨h3, g, hgm, hgs⟩
      · right; left
        constructor
        · rw [heur_fold_preserve "number" _ _ tfs _ k (by rw [h2]; rfl), h2]
        · exact ⟨f, hfm, hfs⟩
  · rfl
  · rfl
  · set_option maxRecDepth 4000 in rfl
  · decide

/-- Witness for C7 at concrete inputs: existing evidence survives the
heuristics stage, and an absent key on an empty template yields nothing. -/
theorem c7_witness :
    alGet (pre_detect_heuristics "Tutar: 99 TL" []
        [("Alan", PyVal.str "x")]) "Alan" =
      alGet [("Alan", PyVal.str "x")] "Alan" ∧
    (alGet (pre_detect_heuristics "Tutar: 99 TL" [] []) "Alan" = none ∨
     (alGet (pre_detect_heuristics "Tutar: 99 TL" [] []) "Alan" =
        some (autoEntry "auto_date"
          ((dedupStr (dateFindall "Tutar: 99 TL")).take 3)) ∧
      ∃ field ∈ ([] : List (List (String × PyVal))),
        pyGet field "field_name" = .str "Alan" ∧
        pyGet field "data_type" = .str "date") ∨
     (alGet (pre_detect_heuristics "Tutar: 99 TL" [] []) "Alan" =
        some (autoEntry "auto_number"
          ((dedupStr (numberFindall "Tutar: 99 TL")).take 5)) ∧
      ∃ field ∈ ([] : List (List (String × PyVal))),
        pyGet field "field_name" = .str "Alan" ∧
        pyGet field "data_type" = .str "number")) :=
  ⟨c7_generic_heuristics.1 "Tutar: 99 TL" [] [("Alan", PyVal.str "x")] "Alan" rfl,
   c7_generic_heuristics.2.1 "Tutar: 99 TL" [] [] "Alan" rfl⟩

/-! ## OCR-confidence blending (ai_field_mapper.py, lines 763-838 and
966-1028, claim C3) -/

/-- The character class `[0-9A-Za-zçğıöşüÇĞİÖŞÜ]` used by `_normalize_token`
and the value tokenizer. -/
def isTokenChar (c : Char) : Bool :=
  c.isAlphanum || ['ç', 'ğ', 'ı', 'ö', 'ş', 'ü', 'Ç', 'Ğ', 'İ', 'Ö', 'Ş', 'Ü'].contains c

/-- `AIFieldMapper._normalize_token` (ai_field_mapper.py, lines 701-705):
strip every character outside the class, then lowercase. -/
def normalize_token (token : String) : String :=
  pyLower ⟨token.toList.filter isTokenChar⟩

/-- `re.findall(r"[0-9A-Za-zçğıöşüÇĞİÖŞÜ]+", value)`: maximal runs of token
characters; fuel-driven, one consumed character per fuel unit suffices. -/
def tokenRunsGo : Nat → List Char → List String
  | 0, _ => []
  | _ + 1, [] => []
  | fuel + 1, c :: rest =>
    if isTokenChar c then
      (⟨c :: rest.takeWhile isTokenChar⟩ : String) ::
        tokenRunsGo fuel (rest.dropWhile isTokenChar)
    else tokenRunsGo fuel rest

/-- `defaultdict(list)` append: extend the bucket of `k`, creating it at the
end on first touch (Python dicts keep insertion order). -/
def wcmAdd (m : List (String × List ℚ)) (k : String) (q : ℚ) :
    List (String × List ℚ) :=
  match alGet m k with
  | some l => alSet m k (l ++ [q])
  | none => m ++ [(k, [q])]

/-- Shared body of the two `_build_word_confidence_map` loops (lines
776-785 and 793-802): clamp the score, bucket it under the
stripped-lowercased token and, when different and non-empty, under the
normalized token. -/
def addToken (m : List (String × List ℚ)) (token : String) (q : ℚ) :
    List (String × List ℚ) :=
  let clamped := max 0 (min q 1)
  let lowered := pyLower (pyStrip token)
  let m1 := if lowered ≠ "" then wcmAdd m lowered clamped else m
  let normalized := normalize_token token
  if normalized ≠ "" ∧ normalized ≠ lowered then wcmAdd m1 normalized clamped
  else m1

/-- `AIFieldMapper._build_word_confidence_map` (ai_field_mapper.py, lines
763-806). `_safe_float` is `pyFloat` (None and unconvertible values map to
`none`); non-string `word` values that Python would crash on
(`word.strip()` on a number) are out of the model and skipped. The final
comprehension dropping empty buckets is the identity here, as buckets are
created non-empty. -/
def build_word_confidence_map (ocr_data : PyVal) : List (String × List ℚ) :=
  match ocr_data with
  | .obj od =>
    let m1 :=
      match alGet od "confidence_scores" with
      | some (.obj cs) =>
        cs.foldl (fun m p =>
          match pyFloat p.2 with
          | none => m
          | some q => addToken m p.1 q) []
      | _ => []
    match alGet od "words_with_bbox" with
    | some (.arr ws) =>
      ws.foldl (fun m w =>
        match w with
        | .obj wd =>
          (match pyGet wd "word" with
           | .str word =>
             if word ≠ "" then
               match pyFloat (pyGet wd "confidence") with
               | some q => addToken m word q
               | none => m
             else m
           | _ => m)
        | _ => m) m1
    | _ => m1
  | _ => []

/-- `AIFieldMapper._compute_value_ocr_confidence` (ai_field_mapper.py,
lines 807-838): average the bucket means of the tokens found in the map and
scale by coverage, clamped to `[0, 1]`. -/
def compute_value_ocr_confidence (value : String)
    (wcm : List (String × List ℚ)) : Option ℚ :=
  if value = "" then none
  else
    let tokens0 := tokenRunsGo value.toList.length value.toList
    let tokens := if tokens0.isEmpty then [value] else tokens0
    let confidences := tokens.foldr (fun tok acc =>
      let fromKey : String → Option (List ℚ) := fun k =>
        match alGet wcm k with
        | some l => if l.isEmpty then none else some l
        | none => none
      let candidates :=
        match fromKey (pyLower (pyStrip tok)) with
        | some l => some l
        | none => fromKey (normalize_token tok)
      match candidates with
      | some l => (l.sum / (l.length : ℚ)) :: acc
      | none => acc) []
    if confidences.isEmpty then none
    else
      let coverage : ℚ :=
        if tokens.isEmpty then 1 else (confidences.length : ℚ) / (tokens.length : ℚ)
      let avg := confidences.sum / (confidences.length : ℚ)
      some (max 0 (min 1 (avg * coverage)))

/-- `str(value).strip() if value not in (None, "") else ""` (line 995). -/
def valueStr (mapping : List (String × PyVal)) : String :=
  match pyGet mapping "value" with
  | .null => ""
  | .str "" => ""
  | v => pyStrip (pyStr v)

/-- `{field.get('field_name'): field for field in template_fields if
field.get('field_name')}` (lines 979-981); names are modelled as strings
(the shape every caller supplies). -/
def metadataIndex (template_fields : List (List (String × PyVal))) :
    List (String × List (String × PyVal)) :=
  template_fields.foldl (fun mi f =>
    match pyGet f "field_name" with
    | .str n => if n ≠ "" then alSet mi n f else mi
    | _ => mi) []

/-- Per-field body of the `_merge_ocr_confidence` loop (ai_field_mapper.py,
lines 989-1025): returns the rewritten mapping value and, for dict
mappings, the combined confidence collected into the overall mean.
`regexSearch pat s` is the semantics of `re.search(pat, s)` — `some b` its
truthiness, `none` a `re.error`, which the source swallows as valid; a
non-string truthy `regex_hint` (which Python would crash on) is out of the
model and treated as valid. -/
def mergeEntry (regexSearch : String → String → Option Bool)
    (wcm : List (String × List ℚ))
    (mindex : List (String × List (String × PyVal)))
    (fname : String) (v : PyVal) : PyVal × Option ℚ :=
  match v with
  | .obj mapping =>
    let metadata := (alGet mindex fname).getD []
    let llm_conf := (pyFloat (pyGet mapping "confidence")).getD 0
    let value_str := valueStr mapping
    let ocr_conf : Option ℚ :=
      if value_str ≠ "" ∧ ¬wcm.isEmpty then
        compute_value_ocr_confidence value_str wcm
      else none
    let regex_ok : Bool :=
      match pyGet metadata "regex_hint" with
      | .str pat =>
        if pat ≠ "" ∧ value_str ≠ "" then (regexSearch pat value_str).getD true
        else true
      | _ => true
    let combined1 :=
      match ocr_conf with
      | some oc => llm_conf * (3/5) + oc * (2/5)
      | none => llm_conf
    let combined2 :=
      if regex_ok then combined1 else min combined1 (llm_conf * (1/2))
    let combined3 :=
      if pyTruthy (pyGet metadata "required") ∧ value_str = "" then 0
      else combined2
    let combined := max 0 (min 1 combined3)
    (.obj (alSet (alSet mapping "confidence" (.num combined))
        "confidence_breakdown"
        (.obj [("llm", .num llm_conf),
               ("ocr", match ocr_conf with | some oc => .num oc | none => .null),
               ("regex_valid", .bool regex_ok)])),
     some combined)
  | other => (other, none)

/-- One `field_mappings.items()` iteration of `_merge_ocr_confidence`:
rewrite the entry in place and collect the combined confidence. -/
def mocStep (regexSearch : String → String → Option Bool)
    (wcm : List (String × List ℚ))
    (mindex : List (String × List (String × PyVal)))
    (acc : List (String × PyVal) × List ℚ) (p : String × PyVal) :
    List (String × PyVal) × List ℚ :=
  (acc.1 ++ [(p.1, (mergeEntry regexSearch wcm mindex p.1 p.2).1)],
   match (mergeEntry regexSearch wcm mindex p.1 p.2).2 with
   | some c => acc.2 ++ [c]
   | none => acc.2)

/-- `AIFieldMapper._merge_ocr_confidence` (ai_field_mapper.py, lines
966-1028), on the result dict: no-op unless `field_mappings` is a non-empty
dict; otherwise every mapping entry is rewritten and, when any confidences
were collected, `overall_confidence` becomes their unweighted mean. -/
def merge_ocr_confidence (regexSearch : String → String → Option Bool)
    (result : List (String × PyVal)) (ocr_data : PyVal)
    (template_fields : List (List (String × PyVal))) :
    List (String × PyVal) :=
  match alGet result "field_mappings" with
  | some (.obj fm) =>
    if fm.isEmpty then result
    else
      let wcm := build_word_confidence_map ocr_data
      let mindex := metadataIndex template_fields
      let res := fm.foldl (mocStep regexSearch wcm mindex) ([], [])
      let result2 := alSet result "field_mappings" (.obj res.1)
      if res.2.isEmpty then result2
      else alSet result2 "overall_confidence"
        (.num (res.2.sum / (res.2.length : ℚ)))
  | _ => result

/-- The merge loop is a pointwise rewrite plus the collected-confidence
list. -/
theorem mocStep_fold_eq (rs : String → String → Option Bool)
    (wcm : List (String × List ℚ))
    (mindex : List (String × List (String × PyVal)))
    (fm : List (String × PyVal)) (acc1 : List (String × PyVal))
    (acc2 : List ℚ) :
    fm.foldl (mocStep rs wcm mindex) (acc1, acc2) =
      (acc1 ++ fm.map (fun p => (p.1, (mergeEntry rs wcm mindex p.1 p.2).1)),
       acc2 ++ fm.filterMap (fun p => (mergeEntry rs wcm mindex p.1 p.2).2)) := by
  induction fm generalizing acc1 acc2 with
  | nil => simp
  | cons p t ih =>
    rw [List.foldl_cons, List.map_cons, List.filterMap_cons]
    rcases hr : (mergeEntry rs wcm mindex p.1 p.2).2 with _ | c
    · rw [show mocStep rs wcm mindex (acc1, acc2) p =
          (acc1 ++ [(p.1, (mergeEntry rs wcm mindex p.1 p.2).1)], acc2) from by
            unfold mocStep
            rw [hr]]
      rw [ih]
      simp [hr]
    · rw [show mocStep rs wcm mindex (acc1, acc2) p =
          (acc1 ++ [(p.1, (mergeEntry rs wcm mindex p.1 p.2).1)], acc2 ++ [c]) from by
            unfold mocStep
            rw [hr]]
      rw [ih]
      simp [hr]

/-- C3: the merge rewrites every mapping pointwise and sets the overall
confidence to the unweighted mean of the collected per-field confidences;
every collected confidence is clamped to `[0,1]`; a required field with an
empty value gets confidence `0` regardless of the model confidence; a
declared validation pattern that the value fails caps the confidence at
(the clamp of) half the model confidence; with a matched OCR confidence the
result is `0.6·llm + 0.4·ocr` clamped, and without one the model confidence
is used unchanged (clamped); and the OCR component itself is the clamped
`average × coverage` value in `[0,1]`. -/
theorem c3_ocr_confidence_merge :
    (∀ (rs : String → String → Option Bool) (result : List (String × PyVal))
       (ocr_data : PyVal) (tfs : List (List (String × PyVal)))
       (fm : List (String × PyVal)),
       alGet result "field_mappings" = some (.obj fm) → fm.isEmpty = false →
       merge_ocr_confidence rs result ocr_data tfs =
         (if (fm.filterMap (fun p => (mergeEntry rs
              (build_word_confidence_map ocr_data) (metadataIndex tfs)
              p.1 p.2).2)).isEmpty then
            alSet result "field_mappings" (.obj (fm.map (fun p =>
              (p.1, (mergeEntry rs (build_word_confidence_map ocr_data)
                (metadataIndex tfs) p.1 p.2).1))))
          else
            alSet (alSet result "field_mappings" (.obj (fm.map (fun p =>
                (p.1, (mergeEntry rs (build_word_confidence_map ocr_data)
                  (metadataIndex tfs) p.1 p.2).1)))))
              "overall_confidence"
              (.num ((fm.filterMap (fun p => (mergeEntry rs
                  (build_word_confidence_map ocr_data) (metadataIndex tfs)
                  p.1 p.2).2)).sum /
                ((fm.filterMap (fun p => (mergeEntry rs
                  (build_word_confidence_map ocr_data) (metadataIndex tfs)
                  p.1 p.2).2)).length : ℚ))))) ∧
    (∀ (rs : String → String → Option Bool) (wcm : List (String × List ℚ))
       (mindex : List (String × List (String × PyVal))) (fname : String)
       (mapping : List (String × PyVal)) (c : ℚ),
       (mergeEntry rs wcm mindex fname (.obj mapping)).2 = some c →
       0 ≤ c ∧ c ≤ 1) ∧
    (∀ (rs : String → String → Option Bool) (wcm : List (String × List ℚ))
       (mindex : List (String × List (String × PyVal))) (fname : String)
       (mapping : List (String × PyVal)),
       pyTruthy (pyGet ((alGet mindex fname).getD []) "required") = true →
       valueStr mapping = "" →
       (mergeEntry rs wcm mindex fname (.obj mapping)).2 = some 0) ∧
    (∀ (rs : String → String → Option Bool) (wcm : List (String × List ℚ))
       (mindex : List (String × List (String × PyVal))) (fname : String)
       (mapping : List (String × PyVal)) (pat : String) (c : ℚ),
       pyGet ((alGet mindex fname).getD []) "regex_hint" = .str pat →
       pat ≠ "" → valueStr mapping ≠ "" →
       rs pat (valueStr mapping) = some false →
       (mergeEntry rs wcm mindex fname (.obj mapping)).2 = some c →
       c ≤ max 0 (min 1 (((pyFloat (pyGet mapping "confidence")).getD 0) * (1/2)))) ∧
    (∀ (rs : String → String → Option Bool) (wcm : List (String × List ℚ))
       (mindex : List (String × List (String × PyVal))) (fname : String)
       (mapping : List (String × PyVal)) (o : ℚ),
       pyGet ((alGet mindex fname).getD []) "regex_hint" = .null →
       pyTruthy (pyGet ((alGet mindex fname).getD []) "required") = false →
       valueStr mapping ≠ "" → wcm.isEmpty = false →
       compute_value_ocr_confidence (valueStr mapping) wcm = some o →
       (mergeEntry rs wcm mindex fname (.obj mapping)).2 =
         some (max 0 (min 1
           (((pyFloat (pyGet mapping "confidence")).getD 0) * (3/5) + o * (2/5))))) ∧
    (∀ (rs : String → String → Option Bool) (wcm : List (String × List ℚ))
       (mindex : List (String × List (String × PyVal))) (fname : String)
       (mapping : List (String × PyVal)),
       pyGet ((alGet mindex fname).getD []) "regex_hint" = .null →
       pyTruthy (pyGet ((alGet mindex fname).getD []) "required") = false →
       valueStr mapping ≠ "" → wcm.isEmpty = false →
       compute_value_ocr_confidence (valueStr mapping) wcm = none →
       (mergeEntry rs wcm mindex fname (.obj mapping)).2 =
         some (max 0 (min 1 ((pyFloat (pyGet mapping "confidence")).getD 0)))) ∧
    (∀ (value : String) (wcm : List (String × List ℚ)) (o : ℚ),
       compute_value_ocr_confidence value wcm = some o → 0 ≤ o ∧ o ≤ 1) := by
  refine ⟨?_, ?_, ?_, ?_, ?_, ?_, ?_⟩
  · intro rs result ocr_data tfs fm hget hne
    unfold merge_ocr_confidence
    rw [hget]
    dsimp only
    rw [if_neg (by simp [hne])]
    rw [mocStep_fold_eq]
    simp only [List.nil_append]
  · intro rs wcm mindex fname mapping c hc
    unfold mergeEntry at hc
    dsimp only at hc
    rw [Option.some.injEq] at hc
    subst hc
    constructor
    · exact le_max_left _ _
    · exact max_le (by norm_num) (min_le_left _ _)
  · intro rs wcm mindex fname mapping hreq hv
    unfold mergeEntry
    simp only [hv, hreq]
    norm_num
  · intro rs wcm mindex fname mapping pat c hpat hpne hvne hrs hc
    unfold mergeEntry at hc
    simp only [hpat, hrs, hvne, hpne] at hc
    rw [Option.some.injEq] at hc
    subst hc
    rw [if_neg (by simp [hvne])]
    rw [if_neg (by simp [hpne, hvne])]
    apply max_le (le_max_left _ _)
    exact le_trans (min_le_min le_rfl (min_le_right _ _)) (le_max_right _ _)
  · intro rs wcm mindex fname mapping o hpat hreq hvne hwcm hcomp
    unfold mergeEntry
    simp [hpat, hreq, hvne, hwcm, hcomp]
  · intro rs wcm mindex fname mapping hpat hreq hvne hwcm hcomp
    unfold mergeEntry
    simp [hpat, hreq, hvne, hwcm, hcomp]
  · intro value wcm o h
    have hshape : compute_value_ocr_confidence value wcm = none ∨
        ∃ x, compute_value_ocr_confidence value wcm = some (max 0 (min 1 x)) := by
      unfold compute_value_ocr_confidence
      split
      · left; rfl
      · dsimp only
        split
        all_goals split
        all_goals first
          | (left; rfl)
          | (right; exact ⟨_, rfl⟩)
    rcases hshape with hnone | ⟨x, hx⟩
    · rw [hnone] at h
      cases h
    · rw [hx, Option.some.injEq] at h
      subst h
      constructor
      · exact le_max_left _ _
      · exact max_le (by norm_num) (min_le_left _ _)

/-- Witness for C3 at concrete inputs: a one-field result dict takes the
pointwise-rewrite shape, a required field with an empty value gets
confidence `0`, and that confidence is within `[0,1]`. -/
theorem c3_witness :
    merge_ocr_confidence (fun _ _ => some true)
        [("field_mappings", PyVal.obj
          [("Tutar", PyVal.obj [("value", PyVal.str "12")])])]
        PyVal.null [] =
      (if ([("Tutar", PyVal.obj [("value", PyVal.str "12")])].filterMap
            (fun p => (mergeEntry (fun _ _ => some true)
              (build_word_confidence_map PyVal.null) (metadataIndex [])
              p.1 p.2).2)).isEmpty then
         alSet [("field_mappings", PyVal.obj
             [("Tutar", PyVal.obj [("value", PyVal.str "12")])])]
           "field_mappings"
           (PyVal.obj ([("Tutar", PyVal.obj [("value", PyVal.str "12")])].map
             (fun p => (p.1, (mergeEntry (fun _ _ => some true)
               (build_word_confidence_map PyVal.null) (metadataIndex [])
               p.1 p.2).1))))
       else
         alSet (alSet [("field_mappings", PyVal.obj
               [("Tutar", PyVal.obj [("value", PyVal.str "12")])])]
             "field_mappings"
             (PyVal.obj ([("Tutar", PyVal.obj [("value", PyVal.str "12")])].map
               (fun p => (p.1, (mergeEntry (fun _ _ => some true)
                 (build_word_confidence_map PyVal.null) (metadataIndex [])
                 p.1 p.2).1)))))
           "overall_confidence"
           (.num (([("Tutar", PyVal.obj [("value", PyVal.str "12")])].filterMap
               (fun p => (mergeEntry (fun _ _ => some true)
                 (build_word_confidence_map PyVal.null) (metadataIndex [])
                 p.1 p.2).2)).sum /
             (([("Tutar", PyVal.obj [("value", PyVal.str "12")])].filterMap
               (fun p => (mergeEntry (fun _ _ => some true)
                 (build_word_confidence_map PyVal.null) (metadataIndex [])
                 p.1 p.2).2)).length : ℚ)))) ∧
    (mergeEntry (fun _ _ => some true) []
        [("Alan", [("required", PyVal.bool true)])] "Alan"
        (PyVal.obj [])).2 = some 0 ∧
    (0 : ℚ) ≤ 0 ∧ (0 : ℚ) ≤ 1 := by
  refine ⟨c3_ocr_confidence_merge.1 (fun _ _ => some true) _ PyVal.null [] _ rfl rfl,
    ?_, ?_⟩
  · exact c3_ocr_confidence_merge.2.2.1 (fun _ _ => some true) []
      [("Alan", [("required", PyVal.bool true)])] "Alan" [] rfl rfl
  · exact c3_ocr_confidence_merge.2.1 (fun _ _ => some true) []
      [("Alan", [("required", PyVal.bool true)])] "Alan" [] 0
      (c3_ocr_confidence_merge.2.2.1 (fun _ _ => some true) []
        [("Alan", [("required", PyVal.bool true)])] "Alan" [] rfl rfl)

/-! ## LearningService type and pattern inference
(template_learning_service.py, lines 204-312, claim C8) -/

/-- `^\d{4}-\d{2}-\d{2}$` full match (first `_DATE_PATTERNS` entry); the
values these predicates see are pre-stripped, so the `$`-before-final-
newline subtlety cannot arise. -/
def matchDate1 (cs : List Char) : Bool :=
  match cs with
  | [a, b, c, d, e, f, g, h, i, j] =>
    [a, b, c, d].all (fun x => x.isDigit) && e = '-' &&
    [f, g].all (fun x => x.isDigit) && h = '-' &&
    [i, j].all (fun x => x.isDigit)
  | _ => false

/-- `^\d{1,2}[-./]\d{1,2}[-./]\d{2,4}$` full match (second `_DATE_PATTERNS`
entry); with both anchors the maximal digit runs are exact. -/
def matchDate2 (cs : List Char) : Bool :=
  let n1 := digitsPrefix cs
  decide (1 ≤ n1) && decide (n1 ≤ 2) &&
  (match cs.drop n1 with
   | c1 :: t1 =>
     sepOk c1 &&
     (let n2 := digitsPrefix t1
      decide (1 ≤ n2) && decide (n2 ≤ 2) &&
      (match t1.drop n2 with
       | c2 :: t2 =>
         sepOk c2 &&
         (let n3 := digitsPrefix t2
          decide (2 ≤ n3) && decide (n3 ≤ 4) && decide (t2.drop n3 = []))
       | [] => false))
   | [] => false)

/-- `TemplateLearningService._match_date` (lines 255-259). -/
def match_date (value : String) : Bool :=
  matchDate1 value.toList || matchDate2 value.toList

/-- `^-?\d+(?:[.,]\d+)?$` full match on the normalized value. -/
def matchNumberCore (cs : List Char) : Bool :=
  let cs1 := if cs.head? = some '-' then cs.tail else cs
  let n1 := digitsPrefix cs1
  decide (1 ≤ n1) &&
  (match cs1.drop n1 with
   | [] => true
   | c :: t =>
     (c = '.' ∨ c = ',') &&
     (let n2 := digitsPrefix t
      decide (1 ≤ n2) && decide (t.drop n2 = [])))

/-- `TemplateLearningService._match_number` (lines 277-280): spaces and
apostrophes removed, then the anchored number regex. -/
def match_number (value : String) : Bool :=
  matchNumberCore (value.toList.filter (fun c => c ≠ ' ' ∧ c ≠ Char.ofNat 39))

/-- `^[A-Z0-9]+$` full match (`_ALNUM_PATTERN`). -/
def match_alnum (cs : List Char) : Bool :=
  decide (cs ≠ []) && cs.all (fun c => c.isDigit || (decide ('A' ≤ c) && decide (c ≤ 'Z')))

/-- `Counter[k] += 1` on an insertion-ordered counter. -/
def counterInc (c : List (String × Nat)) (k : String) : List (String × Nat) :=
  match alGet c k with
  | some n => alSet c k (n + 1)
  | none => c ++ [(k, 1)]

/-- `Counter.most_common(1)[0]`: the first entry of maximal count
(`most_common` sorts by count with a stable sort over insertion order, so
ties keep the earliest-inserted class). -/
def counterTop (c : List (String × Nat)) : Option (String × Nat) :=
  c.foldl (fun best p =>
    match best with
    | none => some p
    | some q => if p.2 > q.2 then some p else some q) none

/-- Classification step of `_infer_type` (lines 207-215). -/
def itStep (c : List (String × Nat)) (value : String) : List (String × Nat) :=
  let normalized := pyStrip value
  if normalized = "" then c
  else if match_date normalized then counterInc c "date"
  else if match_number normalized then counterInc c "number"
  else counterInc c "text"

/-- `TemplateLearningService._infer_type` (template_learning_service.py,
lines 204-229). -/
def infer_type (values : List String) : Option String :=
  let counters := values.foldl itStep []
  if counters.isEmpty then none
  else
    match counterTop counters with
    | none => none
    | some (label, cnt) =>
      if cnt ≥ max 1 (values.length / 2) then some label
      else
        let dateCnt := (alGet counters "date").getD 0
        let numCnt := (alGet counters "number").getD 0
        if dateCnt ≠ 0 ∧ dateCnt ≥ numCnt then some "date"
        else if numCnt ≠ 0 then some "number"
        else some "text"

/-- The two `_DATE_PATTERNS` pattern strings. -/
def datePattern1 : String := "\\d\x7b4\x7d-\\d\x7b2\x7d-\\d\x7b2\x7d"

def datePattern2 : String := "\\d\x7b1,2\x7d[./-]\\d\x7b1,2\x7d[./-]\\d\x7b2,4\x7d"

/-- `TemplateLearningService._dominant_date_pattern` (lines 261-275). -/
def dominant_date_pattern (values : List String) : Option String :=
  let ms := values.foldl (fun m value =>
    let m1 := if matchDate1 value.toList then counterInc m datePattern1 else m
    if matchDate2 value.toList then counterInc m1 datePattern2 else m1) []
  match counterTop ms with
  | none => none
  | some (pattern, count) =>
    if count ≥ max 1 (values.length / 2) then some pattern else none

/-- `len(re.sub(r"[^0-9]", "", value))`. -/
def digitCount (value : String) : Nat :=
  (value.toList.filter (fun c => c.isDigit)).length

/-- A Python set of naturals as its insertion-ordered support. -/
def natSet (xs : List Nat) : List Nat :=
  xs.foldl (fun acc x => if x ∈ acc then acc else acc ++ [x]) []

/-- Maximum of a list (used on non-empty sets only). -/
def maxList : List Nat → Nat
  | [] => 0
  | x :: t => t.foldl max x

/-- Minimum of a list (used on non-empty sets only). -/
def minList : List Nat → Nat
  | [] => 0
  | x :: t => t.foldl min x

/-- `TemplateLearningService._number_pattern` (lines 282-297). -/
def number_pattern (values : List String) : String :=
  match natSet ((values.filter (fun v => v ≠ "")).map digitCount) with
  | [] => "-?\\d+(?:[.,]\\d+)?"
  | [l] => "-?\\d\x7b" ++ toString (max l 1) ++ "\x7d(?:[.,]\\d+)?"
  | ls => "-?\\d\x7b1," ++ toString (maxList ls) ++ "\x7d(?:[.,]\\d+)?"

/-- `TemplateLearningService._alphanumeric_pattern` (lines 299-312). -/
def alphanumeric_pattern (values : List String) : Option String :=
  let alnum := values.filter (fun v => match_alnum v.toList)
  if alnum.isEmpty then none
  else
    match natSet (alnum.map (fun v => v.toList.length)) with
    | [] => none
    | [l] => some ("[A-Z0-9]\x7b" ++ toString l ++ "\x7d")
    | ls => some ("[A-Z0-9]\x7b" ++ toString (minList ls) ++ "," ++
        toString (maxList ls) ++ "\x7d")

/-- The characters `re.escape` prefixes with a backslash (Python ≥ 3.7). -/
def isReSpecial (c : Char) : Bool :=
  ("()[]?*+-|^$\\.&~# \t\n".toList ++
    [Char.ofNat 123, Char.ofNat 125, Char.ofNat 11, Char.ofNat 12,
     Char.ofNat 13]).contains c

/-- `re.escape`. -/
def reEscape (s : String) : String :=
  ⟨s.toList.foldr (fun c acc =>
    if isReSpecial c then '\\' :: c :: acc else c :: acc) []⟩

/-- `TemplateLearningService._infer_pattern` (template_learning_service.py,
lines 231-253). -/
def infer_pattern (values : List String) (type_hint : Option String) :
    Option String :=
  if values.isEmpty then none
  else if type_hint = some "date" then
    match dominant_date_pattern values with
    | some p => some p
    | none => some datePattern2
  else if type_hint = some "number" then some (number_pattern values)
  else
    match alphanumeric_pattern values with
    | some p => some p
    | none =>
      if (dedupStr values).length = 1 then
        match values with
        | v :: _ => some (reEscape v)
        | [] => none
      else none

/-- Membership through `counterInc`. -/
theorem counterInc_mem (c : List (String × Nat)) (k : String)
    (p : String × Nat) (hp : p ∈ counterInc c k) : p.1 = k ∨ p ∈ c := by
  unfold counterInc at hp
  rcases hc : alGet c k with _ | n
  · rw [hc] at hp
    rcases List.mem_append.mp hp with h | h
    · right; exact h
    · left
      rw [List.mem_singleton.mp h]
  · rw [hc] at hp
    rcases mem_alSet _ _ _ _ hp with h | h
    · left; rw [h]
    · right; exact h

/-- `counterTop` returns an entry of the counter. -/
theorem counterTop_mem (c : List (String × Nat)) (p : String × Nat)
    (h : counterTop c = some p) : p ∈ c := by
  unfold counterTop at h
  suffices haux : ∀ (init : Option (String × Nat)),
      (c.foldl (fun best q =>
        match best with
        | none => some q
        | some r => if q.2 > r.2 then some q else some r) init) = some p →
      init = some p ∨ p ∈ c by
    rcases haux none h with h2 | h2
    · cases h2
    · exact h2
  clear h
  induction c with
  | nil =>
    intro init h
    left; exact h
  | cons q t ih =>
    intro init h
    rw [List.foldl_cons] at h
    rcases ih _ h with h2 | h2
    · rcases init with _ | r
      · dsimp only at h2
        injection h2 with h3
        subst h3
        right
        exact List.mem_cons_self _ _
      · dsimp only at h2
        by_cases hgt : q.2 > r.2
        · rw [if_pos hgt] at h2
          injection h2 with h3
          subst h3
          right
          exact List.mem_cons_self _ _
        · rw [if_neg hgt] at h2
          left; exact h2
    · right
      exact List.mem_cons_of_mem _ h2

/-- Every key the classification fold creates is one of the three classes. -/
theorem itStep_fold_keys (values : List String) (c : List (String × Nat))
    (hc : ∀ p ∈ c, p.1 = "date" ∨ p.1 = "number" ∨ p.1 = "text") :
    ∀ p ∈ values.foldl itStep c,
      p.1 = "date" ∨ p.1 = "number" ∨ p.1 = "text" := by
  induction values generalizing c with
  | nil => exact hc
  | cons v t ih =>
    rw [List.foldl_cons]
    refine ih _ ?_
    intro p hp
    unfold itStep at hp
    dsimp only at hp
    split at hp
    · exact hc p hp
    · split at hp
      · rcases counterInc_mem _ _ _ hp with h | h
        · left; exact h
        · exact hc p h
      · split at hp
        · rcases counterInc_mem _ _ _ hp with h | h
          · right; left; exact h
          · exact hc p h
        · rcases counterInc_mem _ _ _ hp with h | h
          · right; right; exact h
          · exact hc p h

/-- Values that all strip to blank never touch the counter. -/
theorem itStep_fold_blank (values : List String)
    (h : ∀ v ∈ values, pyStrip v = "") (c : List (String × Nat)) :
    values.foldl itStep c = c := by
  induction values with
  | nil => rfl
  | cons v t ih =>
    rw [List.foldl_cons]
    unfold itStep
    rw [if_pos (h v (List.mem_cons_self _ _))]
    exact ih (fun w hw => h w (List.mem_cons_of_mem _ hw))

/-- A run of all-date values piles the whole count on `date`. -/
theorem itStep_fold_alldate (values : List String)
    (h : ∀ v ∈ values, pyStrip v ≠ "" ∧ match_date (pyStrip v) = true) :
    ∀ n : Nat, values.foldl itStep [("date", n)] =
      [("date", n + values.length)] := by
  induction values with
  | nil =>
    intro n
    simp
  | cons v t ih =>
    intro n
    rw [List.foldl_cons]
    obtain ⟨hne, hdate⟩ := h v (List.mem_cons_self _ _)
    have hv : itStep [("date", n)] v = [("date", n + 1)] := by
      unfold itStep
      rw [if_neg hne, if_pos hdate]
      rfl
    rw [hv, ih (fun w hw => h w (List.mem_cons_of_mem _ hw))]
    have harith : n + 1 + t.length = n + (t.length + 1) := by omega
    rw [harith]
    rfl

/-- C8 (amended behaviour of `_infer_type`/`_infer_pattern`): an all-blank
sample infers nothing; a non-empty all-date sample infers `date` (the
majority threshold `max(1, len(values)//2)` is then always met); every
inferred type is one of `date`, `number`, `text`; and on the example
`["12.03.2024", "05.11.2023", "01.01.2022"]` the type is `date` and the
pattern is `\d{1,2}[-./]\d{1,2}[-./]\d{2,4}` (separator class
reordered in this comment; the code writes it as dot, slash, dash). -/
theorem c8_type_inference :
    (∀ values : List String, (∀ v ∈ values, pyStrip v = "") →
       infer_type values = none) ∧
    (∀ values : List String, values ≠ [] →
       (∀ v ∈ values, pyStrip v ≠ "" ∧ match_date (pyStrip v) = true) →
       infer_type values = some "date") ∧
    (∀ (values : List String) (r : String), infer_type values = some r →
       r = "date" ∨ r = "number" ∨ r = "text") ∧
    (infer_type ["12.03.2024", "05.11.2023", "01.01.2022"] = some "date" ∧
     infer_pattern ["12.03.2024", "05.11.2023", "01.01.2022"] (some "date") =
       some datePattern2) := by
  refine ⟨?_, ?_, ?_, by decide, by decide⟩
  · intro values h
    unfold infer_type
    rw [itStep_fold_blank values h]
    rfl
  · intro values hne h
    rcases values with _ | ⟨v, t⟩
    · cases hne rfl
    · have hhead : itStep [] v = [("date", 1)] := by
        obtain ⟨hv1, hv2⟩ := h v (List.mem_cons_self _ _)
        unfold itStep
        rw [if_neg hv1, if_pos hv2]
        rfl
      have hcounters : List.foldl itStep [] (v :: t) = [("date", 1 + t.length)] := by
        rw [List.foldl_cons, hhead,
          itStep_fold_alldate t (fun w hw => h w (List.mem_cons_of_mem _ hw)) 1]
      have hcnt : 1 + t.length ≥ max 1 ((v :: t).length / 2) := by
        simp only [List.length_cons]
        omega
      unfold infer_type
      rw [hcounters]
      show (if 1 + t.length ≥ max 1 ((v :: t).length / 2) then some "date"
            else if 1 + t.length ≠ 0 ∧ 1 + t.length ≥ 0 then some "date"
            else if (0 : Nat) ≠ 0 then some "number" else some "text") =
        some "date"
      rw [if_pos hcnt]
  · intro values r h
    simp only [infer_type] at h
    split at h
    · cases h
    · split at h
      · cases h
      · rename_i label cnt htop
        split at h
        · have hmem := counterTop_mem _ _ htop
          have hkeys := itStep_fold_keys values []
            (by intro p hp; cases hp) _ hmem
          rw [Option.some.injEq] at h
          subst h
          exact hkeys
        · split at h
          · rw [Option.some.injEq] at h
            subst h
            left; rfl
          · split at h
            · rw [Option.some.injEq] at h
              subst h
              right; left; rfl
            · rw [Option.some.injEq] at h
              subst h
              right; right; rfl

/-- C8 counterexample to the claimed tie-breaking: with two `text` values,
two `date` values and one `number` value the top count is a tie between
`text` and `date` at the threshold; `Counter.most_common` keeps the
earliest-inserted class, so the code infers `text`, not the `date` that a
date-over-number-over-text tie preference would give. -/
theorem c8_counterexample :
    infer_type ["a b", "c d", "12.03.2024", "13.04.2024", "1"] = some "text" ∧
    ¬ (infer_type ["a b", "c d", "12.03.2024", "13.04.2024", "1"] =
        some "date") := by
  constructor
  · decide
  · decide

/-- Witness for C8 at concrete inputs: a blank sample infers nothing, an
all-date singleton infers `date`, and that inference lands in the class
set. -/
theorem c8_witness :
    infer_type ["   "] = none ∧
    infer_type ["01.02.2023"] = some "date" ∧
    ("date" = "date" ∨ "date" = "number" ∨ "date" = "text") := by
  refine ⟨c8_type_inference.1 ["   "] ?_, ?_, ?_⟩
  · intro v hv
    rw [List.mem_singleton.mp hv]
    rfl
  · exact c8_type_inference.2.1 ["01.02.2023"] (by decide)
      (by intro v hv; rw [List.mem_singleton.mp hv]; exact ⟨by decide, by decide⟩)
  · exact c8_type_inference.2.2.1 ["01.02.2023"] "date"
      (c8_type_inference.2.1 ["01.02.2023"] (by decide)
        (by intro v hv; rw [List.mem_singleton.mp hv]; exact ⟨by decide, by decide⟩))

/-! ## record_correction upsert behaviour
(template_learning_service.py, lines 41-97, claim C9) -/

/-- A row of the `correction_feedback` table (database.py, lines 152-176);
the columns the function never touches are omitted. -/
structure CFRecord where
  document_id : Nat
  template_field_id : Option Nat
  original_value : Option String
  corrected_value : String
  feedback_context : List (String × PyVal)
  created_by : Option Nat
deriving Repr

/-- The unique-constraint key comparison on a stored row. -/
def cfMatch (d : Nat) (tf : Option Nat) (cv : String) (r : CFRecord) : Bool :=
  decide (r.document_id = d) && decide (r.template_field_id = tf) &&
    decide (r.corrected_value = cv)

/-- Whether inserting `(d, tf, cv)` violates
`uq_correction_feedback_document_field_value`: SQL treats NULLs as
distinct, so a row with a NULL `template_field_id` never conflicts. -/
def violates (db : List CFRecord) (d : Nat) (tf : Option Nat) (cv : String) :
    Bool :=
  match tf with
  | none => false
  | some f => db.any (cfMatch d (some f) cv)

/-- Update the first row matching `p` (the `.first()` row of the recovery
query) in place. -/
def updateFirst (db : List CFRecord) (p : CFRecord → Bool)
    (f : CFRecord → CFRecord) : List CFRecord :=
  match db with
  | [] => []
  | r :: t => if p r then f r :: t else r :: updateFirst t p f

/-- `TemplateLearningService.record_correction` (template_learning_service.py,
lines 41-97) against a database state. The inserted row stores
`corrected_text or ""`; on an `IntegrityError` the session is rolled back
and the recovery query filters on `corrected_text` — the value BEFORE the
`or ""` fallback, so a `None` corrected value (stored as `""`) is looked up
as SQL NULL, matches nothing in the NOT NULL column, and the exception is
re-raised (`Except.error`). `created_by` is only overwritten when given. -/
def record_correction (db : List CFRecord) (document_id : Nat)
    (template_field_id : Option Nat) (original_value : Option PyVal)
    (corrected_value : Option PyVal) (context : Option (List (String × PyVal)))
    (created_by : Option Nat) : Except String (List CFRecord × CFRecord) :=
  if violates db document_id template_field_id
      ((corrected_value.map pyStr).getD "") then
    match corrected_value.map pyStr with
    | none => .error "IntegrityError"
    | some ct =>
      match db.find? (cfMatch document_id template_field_id ct) with
      | some r0 =>
        .ok (updateFirst db (cfMatch document_id template_field_id ct)
            (fun r =>
              { r with
                  original_value := original_value.map pyStr
                  feedback_context := context.getD []
                  created_by :=
                    if created_by.isSome then created_by else r.created_by }),
          { r0 with
              original_value := original_value.map pyStr
              feedback_context := context.getD []
              created_by :=
                if created_by.isSome then created_by else r0.created_by })
      | none => .error "IntegrityError"
  else
    .ok (db ++
      [{ document_id := document_id
         template_field_id := template_field_id
         original_value := original_value.map pyStr
         corrected_value := (corrected_value.map pyStr).getD ""
         feedback_context := context.getD []
         created_by := created_by }],
      { document_id := document_id
        template_field_id := template_field_id
        original_value := original_value.map pyStr
        corrected_value := (corrected_value.map pyStr).getD ""
        feedback_context := context.getD []
        created_by := created_by })

/-- `updateFirst` never changes the row count. -/
theorem updateFirst_length (db : List CFRecord) (p : CFRecord → Bool)
    (f : CFRecord → CFRecord) : (updateFirst db p f).length = db.length := by
  induction db with
  | nil => rfl
  | cons r t ih =>
    unfold updateFirst
    split
    · rfl
    · simp only [List.length_cons, ih]

/-- C9 (amended): with a NON-NULL `template_field_id` and a non-`None`
corrected value, `record_correction` is an upsert — a fresh triple is
inserted and a duplicate triple is resolved as an in-place update that
keeps the row count; but a NULL `template_field_id` never conflicts (SQL
NULLs are distinct), so such "duplicates" are inserted again; and a `None`
corrected value whose stored `""` duplicates an existing row re-raises:
the error IS surfaced. -/
theorem c9_record_correction_upsert :
    (∀ (db : List CFRecord) (d f : Nat) (orig : Option PyVal) (v : PyVal)
       (ctx : Option (List (String × PyVal))) (cb : Option Nat),
       violates db d (some f) (pyStr v) = false →
       record_correction db d (some f) orig (some v) ctx cb =
         .ok (db ++
           [{ document_id := d, template_field_id := some f
              original_value := orig.map pyStr, corrected_value := pyStr v
              feedback_context := ctx.getD [], created_by := cb }],
           { document_id := d, template_field_id := some f
             original_value := orig.map pyStr, corrected_value := pyStr v
             feedback_context := ctx.getD [], created_by := cb })) ∧
    (∀ (db : List CFRecord) (d f : Nat) (orig : Option PyVal) (v : PyVal)
       (ctx : Option (List (String × PyVal))) (cb : Option Nat),
       violates db d (some f) (pyStr v) = true →
       ∃ (db2 : List CFRecord) (rec : CFRecord),
         record_correction db d (some f) orig (some v) ctx cb =
           .ok (db2, rec) ∧ db2.length = db.length) ∧
    (∀ (db : List CFRecord) (d : Nat) (orig : Option PyVal) (v : PyVal)
       (ctx : Option (List (String × PyVal))) (cb : Option Nat),
       record_correction db d none orig (some v) ctx cb =
         .ok (db ++
           [{ document_id := d, template_field_id := none
              original_value := orig.map pyStr, corrected_value := pyStr v
              feedback_context := ctx.getD [], created_by := cb }],
           { document_id := d, template_field_id := none
             original_value := orig.map pyStr, corrected_value := pyStr v
             feedback_context := ctx.getD [], created_by := cb })) ∧
    (∀ (db : List CFRecord) (d f : Nat) (orig : Option PyVal)
       (ctx : Option (List (String × PyVal))) (cb : Option Nat),
       violates db d (some f) "" = true →
       record_correction db d (some f) orig none ctx cb =
         .error "IntegrityError") := by
  refine ⟨?_, ?_, ?_, ?_⟩
  · intro db d f orig v ctx cb h
    unfold record_correction
    rw [if_neg (by simp only [Option.map_some', Option.getD_some, h]; exact
      Bool.false_ne_true)]
    rfl
  · intro db d f orig v ctx cb h
    have hex : ∃ r ∈ db, cfMatch d (some f) (pyStr v) r = true := by
      have := h
      unfold violates at this
      exact List.any_eq_true.mp this
    have hfind : (db.find? (cfMatch d (some f) (pyStr v))).isSome := by
      rcases hex with ⟨r, hr, hm⟩
      rcases hf : db.find? (cfMatch d (some f) (pyStr v)) with _ | r2
      · rw [List.find?_eq_none] at hf
        exact absurd hm (by simpa using hf r hr)
      · rfl
    rcases hf : db.find? (cfMatch d (some f) (pyStr v)) with _ | r0
    · rw [hf] at hfind
      cases hfind
    · refine ⟨updateFirst db (cfMatch d (some f) (pyStr v))
        (fun r =>
          { r with
              original_value := orig.map pyStr
              feedback_context := ctx.getD []
              created_by := if cb.isSome then cb else r.created_by }),
        { r0 with
            original_value := orig.map pyStr
            feedback_context := ctx.getD []
            created_by := if cb.isSome then cb else r0.created_by }, ?_,
        updateFirst_length _ _ _⟩
      unfold record_correction
      rw [if_pos (by simp only [Option.map_some', Option.getD_some, h])]
      simp only [Option.map_some']
      rw [hf]
  · intro db d orig v ctx cb
    unfold record_correction
    rw [if_neg (by unfold violates; exact Bool.false_ne_true)]
    rfl
  · intro db d f orig ctx cb h
    unfold record_correction
    rw [if_pos (by simp only [Option.map_none', Option.getD_none, h])]
    rfl

/-- C9 counterexample: two calls with the identical
`(document, NULL field, corrected value)` triple both insert (SQL NULLs
never collide in the unique constraint), so the row count grows from 1 to
2 — the claimed triple-keyed upsert does not hold; and a duplicate with a
`None` corrected value surfaces the `IntegrityError` to the caller instead
of resolving it. -/
theorem c9_counterexample :
    record_correction [] 1 none none (some (PyVal.str "12")) none none =
      .ok ([⟨1, none, none, "12", [], none⟩], ⟨1, none, none, "12", [], none⟩) ∧
    record_correction [⟨1, none, none, "12", [], none⟩] 1 none none
        (some (PyVal.str "12")) none none =
      .ok ([⟨1, none, none, "12", [], none⟩, ⟨1, none, none, "12", [], none⟩],
        ⟨1, none, none, "12", [], none⟩) ∧
    ([(⟨1, none, none, "12", [], none⟩ : CFRecord),
      ⟨1, none, none, "12", [], none⟩].length ≠
      [(⟨1, none, none, "12", [], none⟩ : CFRecord)].length) ∧
    record_correction [⟨1, some 5, none, "", [], none⟩] 1 (some 5) none none
        none none =
      .error "IntegrityError" := by
  refine ⟨rfl, rfl, by decide, rfl⟩

/-- Witness for C9 at concrete inputs: a fresh non-NULL-keyed triple
inserts, a duplicate one upserts without growing the table, and a NULL
field id inserts unconditionally. -/
theorem c9_witness :
    record_correction [] 2 (some 7) none (some (PyVal.str "X")) none none =
      Except.ok ([⟨2, some 7, none, "X", [], none⟩],
        ⟨2, some 7, none, "X", [], none⟩) ∧
    (∃ (db2 : List CFRecord) (rec : CFRecord),
      record_correction [⟨2, some 7, none, "X", [], none⟩] 2 (some 7) none
          (some (PyVal.str "X")) none none = .ok (db2, rec) ∧
        db2.length = [(⟨2, some 7, none, "X", [], none⟩ : CFRecord)].length) ∧
    record_correction [] 3 none none (some (PyVal.str "Y")) none (some 4) =
      Except.ok ([⟨3, none, none, "Y", [], some 4⟩],
        ⟨3, none, none, "Y", [], some 4⟩) := by
  refine ⟨?_, ?_, ?_⟩
  · exact c9_record_correction_upsert.1 [] 2 7 none (PyVal.str "X") none none rfl
  · exact c9_record_correction_upsert.2.1 [⟨2, some 7, none, "X", [], none⟩]
      2 7 none (PyVal.str "X") none none rfl
  · exact c9_record_correction_upsert.2.2.1 [] 3 none (PyVal.str "Y") none
      (some 4)

end Diji
